import Mathlib

/-
Verification development for the NullPhaser bot (src/main.py).

The Python source is shallowly embedded below: the fetch client
`safe_get_json`, the subscription registry (`add_stalk`, `remove_stalk`,
`list_stalks`), and the background stalker loop (`stalker_logic`) with its
two per-judge phases.  Python dictionaries are modelled as association
lists (first match wins on lookup, in-place replacement on assignment),
Python `None` / optional JSON fields as `Option`, and the stalker's
interaction with the outside world (HTTP fetches, Telegram sends) as
explicit per-cycle environments.
-/

set_option maxHeartbeats 1000000
set_option maxRecDepth 8000

/-! ## Python string helpers -/

/-- Embedding of `html.escape(str(s), quote=True)` (the source's `esc`),
character by character; `html.escape` replaces `&` first, so the sequential
replaces coincide with a single character-wise map. -/
def escChar (c : Char) : String :=
  if c = '&' then "&amp;"
  else if c = '<' then "&lt;"
  else if c = '>' then "&gt;"
  else if c = Char.ofNat 34 then "&quot;"
  else if c = Char.ofNat 39 then "&#x27;"
  else String.singleton c

/-- The source's `esc` on a value already converted to a string. -/
def esc (s : String) : String :=
  String.join (s.toList.map escChar)

/-- Python `str` on an optional string: `str(None) = "None"`. -/
def pyOptStr : Option String → String
  | some s => s
  | none => "None"

/-- Python `str` on an optional integer: `str(None) = "None"`. -/
def pyOptIntStr : Option Int → String
  | some n => toString n
  | none => "None"

/-- Python `x or y` for an optional string `x` (`None` and `""` are falsy). -/
def pyOrS : Option String → String → String
  | some s, d => if s = "" then d else s
  | none, d => d

/-! ## Substring occurrence (used to state "the message mentions ...") -/

/-- Whether `pat` is an initial run of `l`. -/
def startsWithL : List Char → List Char → Bool
  | [], _ => true
  | _ :: _, [] => false
  | p :: ps, c :: cs => if p = c then startsWithL ps cs else false

/-- Whether `pat` occurs contiguously somewhere in `l`. -/
def occursIn (pat : List Char) : List Char → Bool
  | [] => startsWithL pat []
  | c :: cs => startsWithL pat (c :: cs) || occursIn pat cs

/-- Whether the string `pat` occurs contiguously in `s`. -/
def strContains (s pat : String) : Bool :=
  occursIn pat.data s.data

theorem startsWithL_self : ∀ l : List Char, startsWithL l l = true
  | [] => rfl
  | _ :: cs => by simp [startsWithL, startsWithL_self cs]

theorem startsWithL_append : ∀ pat l t : List Char,
    startsWithL pat l = true → startsWithL pat (l ++ t) = true
  | [], _, _, _ => rfl
  | _ :: _, [], _, h => by simp [startsWithL] at h
  | p :: ps, c :: cs, t, h => by
    simp only [startsWithL] at h ⊢
    by_cases hc : p = c
    · simpa [hc] using startsWithL_append ps cs t (by simpa [hc] using h)
    · simp [hc] at h

theorem occursIn_nil_pat : ∀ l : List Char, occursIn [] l = true
  | [] => rfl
  | _ :: cs => by simp [occursIn, startsWithL, occursIn_nil_pat cs]

theorem occursIn_append_left : ∀ pat l t : List Char,
    occursIn pat l = true → occursIn pat (l ++ t) = true
  | pat, [], t, h => by
    cases pat with
    | nil => exact occursIn_nil_pat t
    | cons p ps => simp [occursIn, startsWithL] at h
  | pat, c :: cs, t, h => by
    simp only [occursIn, Bool.or_eq_true] at h ⊢
    rcases h with h | h
    · exact Or.inl (startsWithL_append pat (c :: cs) t h)
    · exact Or.inr (occursIn_append_left pat cs t h)

theorem occursIn_append_right : ∀ pat l t : List Char,
    occursIn pat t = true → occursIn pat (l ++ t) = true
  | _, [], _, h => h
  | pat, c :: cs, t, h => by
    simp only [occursIn, Bool.or_eq_true]
    exact Or.inr (occursIn_append_right pat cs t h)

theorem string_data_append (a b : String) : (a ++ b).data = a.data ++ b.data := by
  cases a; cases b; rfl

theorem strContains_append_left (a b pat : String)
    (h : strContains a pat = true) : strContains (a ++ b) pat = true := by
  unfold strContains at h ⊢
  rw [string_data_append]
  exact occursIn_append_left _ _ _ h

theorem strContains_append_right (a b pat : String)
    (h : strContains b pat = true) : strContains (a ++ b) pat = true := by
  unfold strContains at h ⊢
  rw [string_data_append]
  exact occursIn_append_right _ _ _ h

theorem strContains_self (s : String) : strContains s s = true := by
  unfold strContains
  cases h : s.data with
  | nil => simp [occursIn, startsWithL]
  | cons c cs => simp [occursIn, startsWithL_self]

/-! ## Fetch client: `safe_get_json` (src/main.py lines 92-108)

A Python value returned by the fetch client.  Crucially, Python has a single
value `None`: it is both what a JSON body `null` decodes to and what the
function returns after its final failed attempt. -/

inductive PyJson where
  | null
  | bool (b : Bool)
  | num (n : Int)
  | str (s : String)
  | arr (l : List PyJson)
  | obj (l : List (String × PyJson))

/-- One iteration of the retry loop of `safe_get_json`.  `outcome i` is what
attempt number `i` does: `.error ()` for a transport error, non-2xx status or
JSON-decode error (the `except` branch), `.ok v` for a body decoding to `v`.
`attempt` is the loop counter, `backoff` the current delay, and `rem` the
number of attempts still allowed including the current one
(`rem = retries + 1 - attempt`, so the source's `attempt < retries` is
`rem > 0` after peeling the current attempt).  Returns the Python return
value, the number of attempts performed, and the list of sleeps executed. -/
def sgj_go (outcome : Nat → Except Unit PyJson) (attempt backoff : Nat) :
    Nat → PyJson × Nat × List Nat
  | 0 => (.null, attempt - 1, [])
  | rem + 1 =>
    match outcome attempt with
    | .ok v => (v, attempt, [])
    | .error _ =>
      if rem > 0 then
        ((sgj_go outcome (attempt + 1) (backoff * 2) rem).1,
         (sgj_go outcome (attempt + 1) (backoff * 2) rem).2.1,
         backoff :: (sgj_go outcome (attempt + 1) (backoff * 2) rem).2.2)
      else (.null, attempt, [])

/-- Embedding of `safe_get_json(url, params, retries, delay)`: attempts run
from loop counter 1 with initial backoff `delay`. -/
def safe_get_json (outcome : Nat → Except Unit PyJson) (retries delay : Nat) :
    PyJson × Nat × List Nat :=
  sgj_go outcome 1 delay retries

theorem geom_cons (b n : Nat) :
    b :: (List.range n).map (fun i => b * 2 * 2 ^ i) =
      (List.range (n + 1)).map (fun i => b * 2 ^ i) := by
  rw [List.range_succ_eq_map, List.map_cons, List.map_map]
  refine congrArg₂ _ (by ring) (List.map_congr_left ?_)
  intro i _
  simp only [Function.comp_apply, pow_succ]
  ring

theorem sgj_go_allfail (outcome : Nat → Except Unit PyJson)
    (hall : ∀ i, outcome i = .error ()) :
    ∀ rem attempt backoff, 1 ≤ rem →
      sgj_go outcome attempt backoff rem =
        (.null, attempt + rem - 1, (List.range (rem - 1)).map fun i => backoff * 2 ^ i)
  | 0, _, _, h => absurd h (by omega)
  | 1, attempt, backoff, _ => by
    simp [sgj_go, hall attempt]
  | rem + 2, attempt, backoff, _ => by
    rw [sgj_go]
    rw [hall attempt]
    simp only [Nat.succ_sub_one, gt_iff_lt, Nat.succ_pos, if_pos]
    rw [sgj_go_allfail outcome hall (rem + 1) (attempt + 1) (backoff * 2) (by omega)]
    refine Prod.ext rfl (Prod.ext (by simp; omega) ?_)
    simpa using geom_cons backoff rem

theorem sgj_go_firstok (outcome : Nat → Except Unit PyJson) (v : PyJson) :
    ∀ rem attempt backoff k, 1 ≤ attempt → attempt ≤ k → k ≤ attempt + rem - 1 →
      (∀ i, attempt ≤ i → i < k → outcome i = .error ()) →
      outcome k = .ok v →
      sgj_go outcome attempt backoff rem =
        (v, k, (List.range (k - attempt)).map fun i => backoff * 2 ^ i)
  | 0, attempt, _, k, h1, h2, h3, _, _ => absurd h3 (by omega)
  | rem + 1, attempt, backoff, k, h1, h2, h3, hfail, hok => by
    rcases Nat.eq_or_lt_of_le h2 with rfl | hlt
    · simp [sgj_go, hok]
    · rw [sgj_go]
      rw [hfail attempt le_rfl hlt]
      have hrem : rem > 0 := by omega
      simp only [gt_iff_lt, hrem, if_pos]
      rw [sgj_go_firstok outcome v rem (attempt + 1) (backoff * 2) k (by omega) (by omega)
        (by omega) (fun i hi hik => hfail i (by omega) hik) hok]
      refine Prod.ext rfl (Prod.ext rfl ?_)
      have hk : k - attempt = (k - (attempt + 1)) + 1 := by omega
      rw [hk]
      simpa using geom_cons backoff (k - (attempt + 1))

/-! ## Python dictionaries as association lists

Lookup takes the first matching key; assignment replaces in place;
`setdefault` appends a fresh key at the end (dict insertion order). -/

/-- Python `d.get(k)`: `None` when the key is absent. -/
def alookup {V : Type} : List (String × V) → String → Option V
  | [], _ => none
  | (a, b) :: t, k => if a = k then some b else alookup t k

/-- One entry of `d` under the in-place assignment `d[k] = v` (entries with
key `k` are overwritten, others kept). -/
def updateEntry {V : Type} (k : String) (f : V → V) : (String × V) → (String × V)
  | (a, b) => if a = k then (k, f b) else (a, b)

/-- Python in-place mutation `d[k] = f(d[k])` of an existing entry. -/
def mapUpdate {V : Type} (m : List (String × V)) (k : String) (f : V → V) :
    List (String × V) :=
  m.map (updateEntry k f)

/-- Python `d[k] = v`: replace the entry in place, or append a new one. -/
def listInsert {V : Type} (m : List (String × V)) (k : String) (v : V) :
    List (String × V) :=
  match alookup m k with
  | none => m ++ [(k, v)]
  | some _ => mapUpdate m k fun _ => v

/-- Python `d.setdefault(k, [])` restricted to list values. -/
def stSetdefault (m : List (String × List String)) (k : String) :
    List (String × List String) :=
  match alookup m k with
  | none => m ++ [(k, [])]
  | some _ => m

theorem alookup_append_absent {V : Type} :
    ∀ (m : List (String × V)) (k : String) (v : V), alookup m k = none →
      alookup (m ++ [(k, v)]) k = some v
  | [], k, v, _ => by simp [alookup]
  | (a, b) :: t, k, v, h => by
    simp only [alookup] at h ⊢
    by_cases hc : a = k
    · simp [hc] at h
    · simpa [hc] using alookup_append_absent t k v (by simpa [hc] using h)

theorem alookup_append_single_ne {V : Type} :
    ∀ (m : List (String × V)) (k k' : String) (v : V), k' ≠ k →
      alookup (m ++ [(k, v)]) k' = alookup m k'
  | [], k, k', v, h => by simp [alookup, Ne.symm h]
  | (a, b) :: t, k, k', v, h => by
    simp only [alookup, List.cons_append]
    by_cases hc : a = k'
    · simp [alookup, hc]
    · simpa [alookup, hc] using alookup_append_single_ne t k k' v h

theorem mapUpdate_cons {V : Type} (a : String) (b : V) (t : List (String × V))
    (k : String) (f : V → V) :
    mapUpdate ((a, b) :: t) k f =
      (if a = k then (k, f b) else (a, b)) :: mapUpdate t k f := rfl

theorem alookup_mapUpdate_self {V : Type} :
    ∀ (m : List (String × V)) (k : String) (f : V → V),
      alookup (mapUpdate m k f) k = (alookup m k).map f
  | [], _, _ => rfl
  | (a, b) :: t, k, f => by
    rw [mapUpdate_cons]
    by_cases hc : a = k
    · rw [if_pos hc]
      subst hc
      simp [alookup]
    · rw [if_neg hc]
      simpa [alookup, hc] using alookup_mapUpdate_self t k f

theorem alookup_mapUpdate_ne {V : Type} :
    ∀ (m : List (String × V)) (k k' : String) (f : V → V), k' ≠ k →
      alookup (mapUpdate m k f) k' = alookup m k'
  | [], _, _, _, _ => rfl
  | (a, b) :: t, k, k', f, h => by
    rw [mapUpdate_cons]
    by_cases hc : a = k
    · rw [if_pos hc]
      subst hc
      simp only [alookup, if_neg (Ne.symm h)]
      exact alookup_mapUpdate_ne t a k' f h
    · rw [if_neg hc]
      by_cases hck : a = k'
      · simp [alookup, hck]
      · simpa [alookup, hck] using alookup_mapUpdate_ne t k k' f h

theorem alookup_listInsert_self {V : Type} (m : List (String × V)) (k : String) (v : V) :
    alookup (listInsert m k v) k = some v := by
  unfold listInsert
  cases hm : alookup m k with
  | none => exact alookup_append_absent m k v hm
  | some w => rw [alookup_mapUpdate_self, hm]; rfl

theorem alookup_listInsert_ne {V : Type} (m : List (String × V)) (k k' : String) (v : V)
    (h : k' ≠ k) : alookup (listInsert m k v) k' = alookup m k' := by
  unfold listInsert
  cases hm : alookup m k with
  | none => exact alookup_append_single_ne m k k' v h
  | some w => exact alookup_mapUpdate_ne m k k' _ h

theorem alookup_listInsert_present {V : Type} (m : List (String × V)) (k k' : String) (v : V)
    (h : alookup m k' ≠ none) : alookup (listInsert m k v) k' ≠ none := by
  by_cases hk : k' = k
  · subst hk
    simp [alookup_listInsert_self]
  · rwa [alookup_listInsert_ne m k k' v hk]

theorem alookup_stSetdefault_self (m : List (String × List String)) (k : String) :
    alookup (stSetdefault m k) k = some ((alookup m k).getD []) := by
  unfold stSetdefault
  cases hm : alookup m k with
  | none => simpa using alookup_append_absent m k [] hm
  | some l => simp [hm]

theorem alookup_stSetdefault_ne (m : List (String × List String)) (k k' : String)
    (h : k' ≠ k) : alookup (stSetdefault m k) k' = alookup m k' := by
  unfold stSetdefault
  cases hm : alookup m k with
  | none => exact alookup_append_single_ne m k k' [] h
  | some l => rfl

/-! ## Subscription registry (src/main.py lines 131-153)

The two module-level tracking dictionaries, chat-id keys normalised to
strings.  `platform == "cf"` selects `STALK_LIST_CF`; every other value
selects `STALK_LIST_AC` (the source's `if platform == "cf" else`). -/

structure Registry where
  cf : List (String × List String)
  ac : List (String × List String)
deriving DecidableEq, Repr

/-- The source's `mapping = STALK_LIST_CF if platform == "cf" else STALK_LIST_AC`. -/
def selMap (st : Registry) (platform : String) : List (String × List String) :=
  if platform = "cf" then st.cf else st.ac

/-- Writing the mutated mapping back into the pair of globals. -/
def putMap (st : Registry) (platform : String) (m : List (String × List String)) :
    Registry :=
  if platform = "cf" then { st with cf := m } else { st with ac := m }

/-- Embedding of `add_stalk(chat_id, platform, handle)` (lines 131-139). -/
def add_stalk (st : Registry) (chat_id : Int) (platform handle : String) :
    Bool × Registry :=
  let k := toString chat_id
  let m := stSetdefault (selMap st platform) k
  if handle ∈ (alookup m k).getD [] then (false, putMap st platform m)
  else (true, putMap st platform (mapUpdate m k fun l => l ++ [handle]))

/-- Embedding of `remove_stalk(chat_id, platform, handle)` (lines 141-148). -/
def remove_stalk (st : Registry) (chat_id : Int) (platform handle : String) :
    Bool × Registry :=
  let k := toString chat_id
  let m := selMap st platform
  match alookup m k with
  | some l =>
    if handle ∈ l then (true, putMap st platform (mapUpdate m k fun l => l.erase handle))
    else (false, st)
  | none => (false, st)

/-- Embedding of `list_stalks(chat_id, platform)` (lines 150-153). -/
def list_stalks (st : Registry) (chat_id : Int) (platform : String) : List String :=
  (alookup (selMap st platform) (toString chat_id)).getD []

/-! ## Stalker loop data model (src/main.py lines 179-258)

A Codeforces `user.status` response and an AtCoder (kenkoooo) submission
list, with exactly the fields the loop reads.  `contestId` and `index` are
accessed with `[]` in the source (they are always present in real
responses), the remaining fields with `.get`, hence `Option`. -/

structure CFProblem where
  contestId : Int
  index : String
  name : Option String
  rating : Option Int
deriving DecidableEq, Repr

structure CFSub where
  id : Option Int
  verdict : Option String
  problem : CFProblem
deriving DecidableEq, Repr

structure CFResp where
  status : Option String
  result : List CFSub
deriving DecidableEq, Repr

structure ACSub where
  id : Option Int
  contest_id : Option String
  problem_id : Option String
  result : Option String
  epoch_second : Option Int
  title : Option String
deriving DecidableEq, Repr

/-- An AtCoder last-seen identifier: the source stores either the native
integer `id` or the composite f-string, so the cache values are a sum. -/
inductive ACId where
  | num (n : Int)
  | str (s : String)
deriving DecidableEq, Repr

/-- One Telegram `bot.send_message(int(chat_str), msg, parse_mode='HTML',
disable_web_page_preview=True)` call attempted by the fan-out loop;
`delivered` is false when the call raised (which the source catches and
logs, continuing with the next chat). -/
structure SendCall where
  handle : String
  chat : String
  text : String
  disablePreview : Bool
  delivered : Bool
deriving DecidableEq, Repr

/-- The CF notification text (lines 199-208): `p_id` and the link are built
from `contestId`/`index`, difficulty is `p.get('rating', '???')`, and every
interpolated piece goes through `esc`. -/
def cfDifficulty (p : CFProblem) : String :=
  match p.rating with
  | some r => toString r
  | none => "???"

def cfProblemId (p : CFProblem) : String :=
  toString p.contestId ++ p.index

def cfLink (p : CFProblem) : String :=
  "https://codeforces.com/contest/" ++ toString p.contestId ++ "/problem/" ++ p.index

def cfMessage (handle : String) (p : CFProblem) : String :=
  "🐶 Вуф! Твоя верная собачка сообщает:\n\n" ++
  "🔥 <b>CF</b> — <b>" ++
  esc handle ++
  "</b> решил задачу!\n🎯 " ++
  esc (cfProblemId p) ++
  ": " ++
  esc (pyOptStr p.name) ++
  " (Сложность: <b>" ++
  esc (cfDifficulty p) ++
  "</b>)\n🔗 <a href=\"" ++
  esc (cfLink p) ++
  "\">Перейти к задаче</a>"

/-- The AC notification pieces (lines 233-245). `sub_id` is
`sub.get('id') or f"{contest_id}#{problem_id}#{epoch_second}"`: the
composite is used whenever `id` is absent or falsy (`0`). -/
def acComposite (sub : ACSub) : String :=
  pyOptStr sub.contest_id ++ "#" ++ pyOptStr sub.problem_id ++ "#" ++
    pyOptIntStr sub.epoch_second

def acDerivedId (sub : ACSub) : ACId :=
  match sub.id with
  | some n => if n = 0 then ACId.str (acComposite sub) else ACId.num n
  | none => ACId.str (acComposite sub)

/-- The title: `sub.get('problem_id') or sub.get('title') or "Unknown"`. -/
def acTitle (sub : ACSub) : String :=
  pyOrS sub.problem_id (pyOrS sub.title "Unknown")

/-- The link: contest link when `contest_id` is truthy, else the user page. -/
def acLink (handle : String) (sub : ACSub) : String :=
  match sub.contest_id with
  | some c =>
    if c = "" then "https://atcoder.jp/users/" ++ handle ++ "/submissions"
    else "https://atcoder.jp/contests/" ++ c ++ "/tasks/" ++ pyOptStr sub.problem_id
  | none => "https://atcoder.jp/users/" ++ handle ++ "/submissions"

def acMessage (handle : String) (sub : ACSub) : String :=
  "🐶 Вуф! Твоя верная собачка сообщает:\n\n" ++
  "🔥 <b>AC</b> — <b>" ++
  esc handle ++
  "</b> AC!\n🎯 " ++
  esc (acTitle sub) ++
  "\n🔗 <a href=\"" ++
  esc (acLink handle sub) ++
  "\">Перейти</a>"

/-- One CF iteration of the stalker for a single handle (lines 193-214):
classify the fetch result (`res and res.get("status") == "OK" and
res.get("result")`, then `verdict == "OK"`, then
`last_solved_cf.get(handle) != sub_id`), fan the message out to every
subscribed chat (each send caught individually), then write the cache.
`res = none` covers both a fetch failure and a falsy body.  The cache
stores `sub.get("id")` values, so `last_solved_cf.get(handle)` as seen by
the `!=` comparison is `Option.join` of the assoc-list lookup. -/
def cfHandleStep (res : Option CFResp) (cache : List (String × Option Int))
    (handle : String) (chats : List String) (sendOk : String → Bool) :
    List SendCall × List (String × Option Int) :=
  match res with
  | none => ([], cache)
  | some r =>
    match r.result with
    | [] => ([], cache)
    | sub :: _ =>
      if r.status = some "OK" then
        if sub.verdict = some "OK" then
          if Option.join (alookup cache handle) ≠ sub.id then
            (chats.map fun ch =>
              ⟨handle, ch, cfMessage handle sub.problem, true, sendOk ch⟩,
             listInsert cache handle sub.id)
          else ([], cache)
        else ([], cache)
      else ([], cache)

/-- One AC iteration for a single handle (lines 229-251): the inspected
submission is `kenko_subs[-1]`, the condition `result == 'AC'` and
`last_solved_ac.get(handle) != sub_id` with the derived identifier. -/
def acHandleStep (res : Option (List ACSub)) (cache : List (String × ACId))
    (handle : String) (chats : List String) (sendOk : String → Bool) :
    List SendCall × List (String × ACId) :=
  match res with
  | none => ([], cache)
  | some subs =>
    match subs.getLast? with
    | none => ([], cache)
    | some sub =>
      if sub.result = some "AC" then
        if alookup cache handle ≠ some (acDerivedId sub) then
          (chats.map fun ch =>
            ⟨handle, ch, acMessage handle sub, true, sendOk ch⟩,
           listInsert cache handle (acDerivedId sub))
        else ([], cache)
      else ([], cache)

/-- Whether the CF branch reaches the notification block for this fetch
result and cache ("new-solve event"). -/
def cfFires (res : Option CFResp) (cache : List (String × Option Int))
    (handle : String) : Bool :=
  match res with
  | none => false
  | some r =>
    match r.result with
    | [] => false
    | sub :: _ =>
      decide (r.status = some "OK") && decide (sub.verdict = some "OK") &&
        decide (Option.join (alookup cache handle) ≠ sub.id)

/-- Whether the AC branch reaches the notification block. -/
def acFires (res : Option (List ACSub)) (cache : List (String × ACId))
    (handle : String) : Bool :=
  match res with
  | none => false
  | some subs =>
    match subs.getLast? with
    | none => false
    | some sub =>
      decide (sub.result = some "AC") &&
        decide (alookup cache handle ≠ some (acDerivedId sub))

/-! ## Per-handle step lemmas -/

theorem cfHandleStep_none (cache : List (String × Option Int)) (handle : String)
    (chats : List String) (sendOk : String → Bool) :
    cfHandleStep none cache handle chats sendOk = ([], cache) := rfl

theorem cfHandleStep_nil (r : CFResp) (hr : r.result = [])
    (cache : List (String × Option Int)) (handle : String)
    (chats : List String) (sendOk : String → Bool) :
    cfHandleStep (some r) cache handle chats sendOk = ([], cache) := by
  have hb : cfHandleStep (some r) cache handle chats sendOk =
      (match r.result with
       | [] => ([], cache)
       | sub :: _ =>
         if r.status = some "OK" then
           if sub.verdict = some "OK" then
             if Option.join (alookup cache handle) ≠ sub.id then
               (chats.map fun ch =>
                 ⟨handle, ch, cfMessage handle sub.problem, true, sendOk ch⟩,
                listInsert cache handle sub.id)
             else ([], cache)
           else ([], cache)
         else ([], cache)) := rfl
  rw [hb, hr]

theorem cfHandleStep_cons (r : CFResp) (sub : CFSub) (rest : List CFSub)
    (hr : r.result = sub :: rest)
    (cache : List (String × Option Int)) (handle : String)
    (chats : List String) (sendOk : String → Bool) :
    cfHandleStep (some r) cache handle chats sendOk =
      (if r.status = some "OK" then
        if sub.verdict = some "OK" then
          if Option.join (alookup cache handle) ≠ sub.id then
            (chats.map fun ch =>
              ⟨handle, ch, cfMessage handle sub.problem, true, sendOk ch⟩,
             listInsert cache handle sub.id)
          else ([], cache)
        else ([], cache)
      else ([], cache)) := by
  have hb : cfHandleStep (some r) cache handle chats sendOk =
      (match r.result with
       | [] => ([], cache)
       | sub :: _ =>
         if r.status = some "OK" then
           if sub.verdict = some "OK" then
             if Option.join (alookup cache handle) ≠ sub.id then
               (chats.map fun ch =>
                 ⟨handle, ch, cfMessage handle sub.problem, true, sendOk ch⟩,
                listInsert cache handle sub.id)
             else ([], cache)
           else ([], cache)
         else ([], cache)) := rfl
  rw [hb, hr]

theorem cfFires_none (cache : List (String × Option Int)) (handle : String) :
    cfFires none cache handle = false := rfl

theorem cfFires_nil (r : CFResp) (hr : r.result = [])
    (cache : List (String × Option Int)) (handle : String) :
    cfFires (some r) cache handle = false := by
  have hb : cfFires (some r) cache handle =
      (match r.result with
       | [] => false
       | sub :: _ =>
         decide (r.status = some "OK") && decide (sub.verdict = some "OK") &&
           decide (Option.join (alookup cache handle) ≠ sub.id)) := rfl
  rw [hb, hr]

theorem cfFires_cons (r : CFResp) (sub : CFSub) (rest : List CFSub)
    (hr : r.result = sub :: rest)
    (cache : List (String × Option Int)) (handle : String) :
    cfFires (some r) cache handle =
      (decide (r.status = some "OK") && decide (sub.verdict = some "OK") &&
        decide (Option.join (alookup cache handle) ≠ sub.id)) := by
  have hb : cfFires (some r) cache handle =
      (match r.result with
       | [] => false
       | sub :: _ =>
         decide (r.status = some "OK") && decide (sub.verdict = some "OK") &&
           decide (Option.join (alookup cache handle) ≠ sub.id)) := rfl
  rw [hb, hr]

theorem acHandleStep_none (cache : List (String × ACId)) (handle : String)
    (chats : List String) (sendOk : String → Bool) :
    acHandleStep none cache handle chats sendOk = ([], cache) := rfl

theorem acHandleStep_noLast (subs : List ACSub) (hl : subs.getLast? = none)
    (cache : List (String × ACId)) (handle : String)
    (chats : List String) (sendOk : String → Bool) :
    acHandleStep (some subs) cache handle chats sendOk = ([], cache) := by
  have hb : acHandleStep (some subs) cache handle chats sendOk =
      (match subs.getLast? with
       | none => ([], cache)
       | some sub =>
         if sub.result = some "AC" then
           if alookup cache handle ≠ some (acDerivedId sub) then
             (chats.map fun ch =>
               ⟨handle, ch, acMessage handle sub, true, sendOk ch⟩,
              listInsert cache handle (acDerivedId sub))
           else ([], cache)
         else ([], cache)) := rfl
  rw [hb, hl]

theorem acHandleStep_last (subs : List ACSub) (sub : ACSub)
    (hl : subs.getLast? = some sub)
    (cache : List (String × ACId)) (handle : String)
    (chats : List String) (sendOk : String → Bool) :
    acHandleStep (some subs) cache handle chats sendOk =
      (if sub.result = some "AC" then
        if alookup cache handle ≠ some (acDerivedId sub) then
          (chats.map fun ch =>
            ⟨handle, ch, acMessage handle sub, true, sendOk ch⟩,
           listInsert cache handle (acDerivedId sub))
        else ([], cache)
      else ([], cache)) := by
  have hb : acHandleStep (some subs) cache handle chats sendOk =
      (match subs.getLast? with
       | none => ([], cache)
       | some sub =>
         if sub.result = some "AC" then
           if alookup cache handle ≠ some (acDerivedId sub) then
             (chats.map fun ch =>
               ⟨handle, ch, acMessage handle sub, true, sendOk ch⟩,
              listInsert cache handle (acDerivedId sub))
           else ([], cache)
         else ([], cache)) := rfl
  rw [hb, hl]

theorem acFires_none (cache : List (String × ACId)) (handle : String) :
    acFires none cache handle = false := rfl

theorem acFires_noLast (subs : List ACSub) (hl : subs.getLast? = none)
    (cache : List (String × ACId)) (handle : String) :
    acFires (some subs) cache handle = false := by
  have hb : acFires (some subs) cache handle =
      (match subs.getLast? with
       | none => false
       | some sub =>
         decide (sub.result = some "AC") &&
           decide (alookup cache handle ≠ some (acDerivedId sub))) := rfl
  rw [hb, hl]

theorem acFires_last (subs : List ACSub) (sub : ACSub)
    (hl : subs.getLast? = some sub)
    (cache : List (String × ACId)) (handle : String) :
    acFires (some subs) cache handle =
      (decide (sub.result = some "AC") &&
        decide (alookup cache handle ≠ some (acDerivedId sub))) := by
  have hb : acFires (some subs) cache handle =
      (match subs.getLast? with
       | none => false
       | some sub =>
         decide (sub.result = some "AC") &&
           decide (alookup cache handle ≠ some (acDerivedId sub))) := rfl
  rw [hb, hl]

theorem cfHandleStep_not_fires (res : Option CFResp) (cache : List (String × Option Int))
    (handle : String) (chats : List String) (sendOk : String → Bool)
    (h : cfFires res cache handle = false) :
    cfHandleStep res cache handle chats sendOk = ([], cache) := by
  cases res with
  | none => exact cfHandleStep_none cache handle chats sendOk
  | some r =>
    cases hr : r.result with
    | nil => exact cfHandleStep_nil r hr cache handle chats sendOk
    | cons sub rest =>
      rw [cfFires_cons r sub rest hr] at h
      rw [cfHandleStep_cons r sub rest hr]
      simp only [Bool.and_eq_false_iff, decide_eq_false_iff_not, Decidable.not_not] at h
      rcases h with (h | h) | h
      · rw [if_neg h]
      · by_cases hs : r.status = some "OK"
        · rw [if_pos hs, if_neg h]
        · rw [if_neg hs]
      · by_cases hs : r.status = some "OK"
        · by_cases hv : sub.verdict = some "OK"
          · rw [if_pos hs, if_pos hv, if_neg (by simpa using h)]
          · rw [if_pos hs, if_neg hv]
        · rw [if_neg hs]

theorem cfHandleStep_fires (res : Option CFResp) (cache : List (String × Option Int))
    (handle : String)
    (h : cfFires res cache handle = true) :
    ∃ r sub rest, res = some r ∧ r.result = sub :: rest ∧ r.status = some "OK" ∧
      sub.verdict = some "OK" ∧ Option.join (alookup cache handle) ≠ sub.id ∧
      ∀ chats sendOk, cfHandleStep res cache handle chats sendOk =
        (chats.map fun ch => ⟨handle, ch, cfMessage handle sub.problem, true, sendOk ch⟩,
         listInsert cache handle sub.id) := by
  cases res with
  | none => rw [cfFires_none] at h; exact absurd h (by simp)
  | some r =>
    cases hr : r.result with
    | nil => rw [cfFires_nil r hr] at h; exact absurd h (by simp)
    | cons sub rest =>
      rw [cfFires_cons r sub rest hr] at h
      simp only [Bool.and_eq_true, decide_eq_true_eq] at h
      obtain ⟨⟨hs, hv⟩, hd⟩ := h
      refine ⟨r, sub, rest, rfl, hr, hs, hv, hd, fun chats sendOk => ?_⟩
      rw [cfHandleStep_cons r sub rest hr, if_pos hs, if_pos hv, if_pos hd]

theorem cfFires_ext (res : Option CFResp) (c c' : List (String × Option Int))
    (handle : String) (h : alookup c handle = alookup c' handle) :
    cfFires res c handle = cfFires res c' handle := by
  cases res with
  | none => rfl
  | some r =>
    cases hr : r.result with
    | nil => rw [cfFires_nil r hr, cfFires_nil r hr]
    | cons sub rest => rw [cfFires_cons r sub rest hr, cfFires_cons r sub rest hr, h]

theorem cfHandleStep_post_not_fires (res : Option CFResp)
    (cache : List (String × Option Int)) (handle : String) (chats : List String)
    (sendOk : String → Bool) :
    cfFires res ((cfHandleStep res cache handle chats sendOk).2) handle = false := by
  by_cases h : cfFires res cache handle = true
  · obtain ⟨r, sub, rest, hres, hr, hs, hv, hd, hstep⟩ := cfHandleStep_fires res cache handle h
    rw [hstep chats sendOk]
    subst hres
    rw [cfFires_cons r sub rest hr]
    simp [alookup_listInsert_self]
  · rw [cfHandleStep_not_fires res cache handle chats sendOk (by simpa using h)]
    simpa using h

theorem cfHandleStep_lookup_other (res : Option CFResp)
    (cache : List (String × Option Int)) (g : String) (chats : List String)
    (sendOk : String → Bool) (h : String) (hgh : h ≠ g) :
    alookup (cfHandleStep res cache g chats sendOk).2 h = alookup cache h := by
  by_cases hf : cfFires res cache g = true
  · obtain ⟨r, sub, rest, hres, hr, hs, hv, hd, hstep⟩ := cfHandleStep_fires res cache g hf
    rw [hstep chats sendOk]
    exact alookup_listInsert_ne cache g h sub.id hgh
  · rw [cfHandleStep_not_fires res cache g chats sendOk (by simpa using hf)]

theorem cfHandleStep_pres_present (res : Option CFResp)
    (cache : List (String × Option Int)) (g : String) (chats : List String)
    (sendOk : String → Bool) (h : String) (hp : alookup cache h ≠ none) :
    alookup (cfHandleStep res cache g chats sendOk).2 h ≠ none := by
  by_cases hf : cfFires res cache g = true
  · obtain ⟨r, sub, rest, hres, hr, hs, hv, hd, hstep⟩ := cfHandleStep_fires res cache g hf
    rw [hstep chats sendOk]
    exact alookup_listInsert_present cache g h sub.id hp
  · rw [cfHandleStep_not_fires res cache g chats sendOk (by simpa using hf)]
    exact hp

theorem cfHandleStep_send_shape (res : Option CFResp)
    (cache : List (String × Option Int)) (g : String) (chats : List String)
    (sendOk : String → Bool) (s : SendCall)
    (hs : s ∈ (cfHandleStep res cache g chats sendOk).1) :
    s.handle = g ∧ s.disablePreview = true ∧ ∃ p, s.text = cfMessage g p := by
  by_cases hf : cfFires res cache g = true
  · obtain ⟨r, sub, rest, hres, hr, hst, hv, hd, hstep⟩ := cfHandleStep_fires res cache g hf
    rw [hstep chats sendOk] at hs
    simp only [List.mem_map] at hs
    obtain ⟨ch, _, rfl⟩ := hs
    exact ⟨rfl, rfl, sub.problem, rfl⟩
  · rw [cfHandleStep_not_fires res cache g chats sendOk (by simpa using hf)] at hs
    simp at hs

theorem cfHandleStep_sends_present (res : Option CFResp)
    (cache : List (String × Option Int)) (g : String) (chats : List String)
    (sendOk : String → Bool) (hne : (cfHandleStep res cache g chats sendOk).1 ≠ []) :
    alookup (cfHandleStep res cache g chats sendOk).2 g ≠ none := by
  by_cases hf : cfFires res cache g = true
  · obtain ⟨r, sub, rest, hres, hr, hst, hv, hd, hstep⟩ := cfHandleStep_fires res cache g hf
    rw [hstep chats sendOk]
    simp [alookup_listInsert_self]
  · rw [cfHandleStep_not_fires res cache g chats sendOk (by simpa using hf)] at hne ⊢
    simp at hne

theorem acHandleStep_not_fires (res : Option (List ACSub)) (cache : List (String × ACId))
    (handle : String) (chats : List String) (sendOk : String → Bool)
    (h : acFires res cache handle = false) :
    acHandleStep res cache handle chats sendOk = ([], cache) := by
  cases res with
  | none => exact acHandleStep_none cache handle chats sendOk
  | some subs =>
    cases hl : subs.getLast? with
    | none => exact acHandleStep_noLast subs hl cache handle chats sendOk
    | some sub =>
      rw [acFires_last subs sub hl] at h
      rw [acHandleStep_last subs sub hl]
      simp only [Bool.and_eq_false_iff, decide_eq_false_iff_not, Decidable.not_not] at h
      rcases h with h | h
      · rw [if_neg h]
      · by_cases hv : sub.result = some "AC"
        · rw [if_pos hv, if_neg (by simpa using h)]
        · rw [if_neg hv]

theorem acHandleStep_fires (res : Option (List ACSub)) (cache : List (String × ACId))
    (handle : String)
    (h : acFires res cache handle = true) :
    ∃ subs sub, res = some subs ∧ subs.getLast? = some sub ∧ sub.result = some "AC" ∧
      alookup cache handle ≠ some (acDerivedId sub) ∧
      ∀ chats sendOk, acHandleStep res cache handle chats sendOk =
        (chats.map fun ch => ⟨handle, ch, acMessage handle sub, true, sendOk ch⟩,
         listInsert cache handle (acDerivedId sub)) := by
  cases res with
  | none => rw [acFires_none] at h; exact absurd h (by simp)
  | some subs =>
    cases hl : subs.getLast? with
    | none => rw [acFires_noLast subs hl] at h; exact absurd h (by simp)
    | some sub =>
      rw [acFires_last subs sub hl] at h
      simp only [Bool.and_eq_true, decide_eq_true_eq] at h
      obtain ⟨hv, hd⟩ := h
      refine ⟨subs, sub, rfl, hl, hv, hd, fun chats sendOk => ?_⟩
      rw [acHandleStep_last subs sub hl, if_pos hv, if_pos hd]

theorem acFires_ext (res : Option (List ACSub)) (c c' : List (String × ACId))
    (handle : String) (h : alookup c handle = alookup c' handle) :
    acFires res c handle = acFires res c' handle := by
  cases res with
  | none => rfl
  | some subs =>
    cases hl : subs.getLast? with
    | none => rw [acFires_noLast subs hl, acFires_noLast subs hl]
    | some sub => rw [acFires_last subs sub hl, acFires_last subs sub hl, h]

theorem acHandleStep_post_not_fires (res : Option (List ACSub))
    (cache : List (String × ACId)) (handle : String) (chats : List String)
    (sendOk : String → Bool) :
    acFires res ((acHandleStep res cache handle chats sendOk).2) handle = false := by
  by_cases h : acFires res cache handle = true
  · obtain ⟨subs, sub, hres, hl, hv, hd, hstep⟩ := acHandleStep_fires res cache handle h
    rw [hstep chats sendOk]
    subst hres
    rw [acFires_last subs sub hl]
    simp [alookup_listInsert_self]
  · rw [acHandleStep_not_fires res cache handle chats sendOk (by simpa using h)]
    simpa using h

theorem acHandleStep_lookup_other (res : Option (List ACSub))
    (cache : List (String × ACId)) (g : String) (chats : List String)
    (sendOk : String → Bool) (h : String) (hgh : h ≠ g) :
    alookup (acHandleStep res cache g chats sendOk).2 h = alookup cache h := by
  by_cases hf : acFires res cache g = true
  · obtain ⟨subs, sub, hres, hl, hv, hd, hstep⟩ := acHandleStep_fires res cache g hf
    rw [hstep chats sendOk]
    exact alookup_listInsert_ne cache g h (acDerivedId sub) hgh
  · rw [acHandleStep_not_fires res cache g chats sendOk (by simpa using hf)]

theorem acHandleStep_pres_present (res : Option (List ACSub))
    (cache : List (String × ACId)) (g : String) (chats : List String)
    (sendOk : String → Bool) (h : String) (hp : alookup cache h ≠ none) :
    alookup (acHandleStep res cache g chats sendOk).2 h ≠ none := by
  by_cases hf : acFires res cache g = true
  · obtain ⟨subs, sub, hres, hl, hv, hd, hstep⟩ := acHandleStep_fires res cache g hf
    rw [hstep chats sendOk]
    exact alookup_listInsert_present cache g h (acDerivedId sub) hp
  · rw [acHandleStep_not_fires res cache g chats sendOk (by simpa using hf)]
    exact hp

theorem acHandleStep_send_shape (res : Option (List ACSub))
    (cache : List (String × ACId)) (g : String) (chats : List String)
    (sendOk : String → Bool) (s : SendCall)
    (hs : s ∈ (acHandleStep res cache g chats sendOk).1) :
    s.handle = g ∧ s.disablePreview = true ∧ ∃ sub, s.text = acMessage g sub := by
  by_cases hf : acFires res cache g = true
  · obtain ⟨subs, sub, hres, hl, hv, hd, hstep⟩ := acHandleStep_fires res cache g hf
    rw [hstep chats sendOk] at hs
    simp only [List.mem_map] at hs
    obtain ⟨ch, _, rfl⟩ := hs
    exact ⟨rfl, rfl, sub, rfl⟩
  · rw [acHandleStep_not_fires res cache g chats sendOk (by simpa using hf)] at hs
    simp at hs

theorem acHandleStep_sends_present (res : Option (List ACSub))
    (cache : List (String × ACId)) (g : String) (chats : List String)
    (sendOk : String → Bool) (hne : (acHandleStep res cache g chats sendOk).1 ≠ []) :
    alookup (acHandleStep res cache g chats sendOk).2 g ≠ none := by
  by_cases hf : acFires res cache g = true
  · obtain ⟨subs, sub, hres, hl, hv, hd, hstep⟩ := acHandleStep_fires res cache g hf
    rw [hstep chats sendOk]
    simp [alookup_listInsert_self]
  · rw [acHandleStep_not_fires res cache g chats sendOk (by simpa using hf)] at hne ⊢
    simp at hne

/-! ## The per-cycle reverse index and the polling loop (lines 185-227) -/

/-- `handle_to_chats.setdefault(h, []).append(chat_str)`. -/
def indexAdd (idx : List (String × List String)) (h chat : String) :
    List (String × List String) :=
  match alookup idx h with
  | none => idx ++ [(h, [chat])]
  | some _ => mapUpdate idx h fun l => l ++ [chat]

/-- Building the ephemeral reverse index from a tracking dictionary, in
dict iteration order. -/
def buildIndex (stalk : List (String × List String)) : List (String × List String) :=
  stalk.foldl (fun idx p => p.2.foldl (fun idx h => indexAdd idx h p.1) idx) []

/-- The common shape of one judge phase: iterate over the reverse index,
threading the cache, collecting attempted sends and fetched handles. -/
def procLoop {V : Type}
    (stepF : String → List String → List (String × V) → List SendCall × List (String × V)) :
    List (String × List String) → List (String × V) →
      List SendCall × List String × List (String × V)
  | [], cache => ([], [], cache)
  | (h, chats) :: rest, cache =>
    ((stepF h chats cache).1 ++ (procLoop stepF rest (stepF h chats cache).2).1,
     h :: (procLoop stepF rest (stepF h chats cache).2).2.1,
     (procLoop stepF rest (stepF h chats cache).2).2.2)

/-- The CF polling phase body, `fetch` giving the `safe_get_json` result of
`user.status?handle=h&from=1&count=1` for each handle this cycle. -/
def cfProcess (fetch : String → Option CFResp) (sendOk : String → Bool)
    (idx : List (String × List String)) (cache : List (String × Option Int)) :
    List SendCall × List String × List (String × Option Int) :=
  procLoop (fun h chats cache => cfHandleStep (fetch h) cache h chats sendOk) idx cache

/-- The AC polling phase body. -/
def acProcess (fetch : String → Option (List ACSub)) (sendOk : String → Bool)
    (idx : List (String × List String)) (cache : List (String × ACId)) :
    List SendCall × List String × List (String × ACId) :=
  procLoop (fun h chats cache => acHandleStep (fetch h) cache h chats sendOk) idx cache

/-! ### Generic loop lemmas -/

theorem procLoop_quiet {V : Type}
    (stepF : String → List String → List (String × V) → List SendCall × List (String × V))
    (firesF : String → List (String × V) → Bool)
    (hstep : ∀ h chats c, firesF h c = false → stepF h chats c = ([], c)) :
    ∀ (idx : List (String × List String)) (c : List (String × V)),
      (∀ p ∈ idx, firesF p.1 c = false) →
      procLoop stepF idx c = ([], idx.map Prod.fst, c)
  | [], c, _ => rfl
  | (h, chats) :: rest, c, hall => by
    have h1 : stepF h chats c = ([], c) := hstep h chats c (hall (h, chats) (by simp))
    simp only [procLoop, h1]
    rw [procLoop_quiet stepF firesF hstep rest c (fun p hp => hall p (by simp [hp]))]
    simp

theorem procLoop_pres_notfires {V : Type}
    (stepF : String → List String → List (String × V) → List SendCall × List (String × V))
    (firesF : String → List (String × V) → Bool)
    (hstep : ∀ h chats c, firesF h c = false → stepF h chats c = ([], c))
    (hpost : ∀ h chats c, firesF h (stepF h chats c).2 = false)
    (hother : ∀ g h chats c, h ≠ g → alookup (stepF g chats c).2 h = alookup c h)
    (hext : ∀ h (c c' : List (String × V)), alookup c h = alookup c' h →
      firesF h c = firesF h c') :
    ∀ (idx : List (String × List String)) (c : List (String × V)) (h : String),
      firesF h c = false → firesF h (procLoop stepF idx c).2.2 = false
  | [], _, _, h0 => h0
  | (g, chats) :: rest, c, h, h0 => by
    simp only [procLoop]
    refine procLoop_pres_notfires stepF firesF hstep hpost hother hext rest _ h ?_
    by_cases hg : h = g
    · subst hg
      exact hpost h chats c
    · rw [hext h (stepF g chats c).2 c (hother g h chats c hg)]
      exact h0

theorem procLoop_post_notfires {V : Type}
    (stepF : String → List String → List (String × V) → List SendCall × List (String × V))
    (firesF : String → List (String × V) → Bool)
    (hstep : ∀ h chats c, firesF h c = false → stepF h chats c = ([], c))
    (hpost : ∀ h chats c, firesF h (stepF h chats c).2 = false)
    (hother : ∀ g h chats c, h ≠ g → alookup (stepF g chats c).2 h = alookup c h)
    (hext : ∀ h (c c' : List (String × V)), alookup c h = alookup c' h →
      firesF h c = firesF h c') :
    ∀ (idx : List (String × List String)) (c : List (String × V)),
      ∀ p ∈ idx, firesF p.1 (procLoop stepF idx c).2.2 = false
  | [], _, p, hp => by simp at hp
  | (g, chats) :: rest, c, p, hp => by
    simp only [List.mem_cons] at hp
    rcases hp with rfl | hp
    · simp only [procLoop]
      exact procLoop_pres_notfires stepF firesF hstep hpost hother hext rest _ g
        (hpost g chats c)
    · simp only [procLoop]
      exact procLoop_post_notfires stepF firesF hstep hpost hother hext rest _ p hp

theorem procLoop_idem {V : Type}
    (stepF : String → List String → List (String × V) → List SendCall × List (String × V))
    (firesF : String → List (String × V) → Bool)
    (hstep : ∀ h chats c, firesF h c = false → stepF h chats c = ([], c))
    (hpost : ∀ h chats c, firesF h (stepF h chats c).2 = false)
    (hother : ∀ g h chats c, h ≠ g → alookup (stepF g chats c).2 h = alookup c h)
    (hext : ∀ h (c c' : List (String × V)), alookup c h = alookup c' h →
      firesF h c = firesF h c')
    (idx : List (String × List String)) (c : List (String × V)) :
    procLoop stepF idx (procLoop stepF idx c).2.2 =
      ([], idx.map Prod.fst, (procLoop stepF idx c).2.2) :=
  procLoop_quiet stepF firesF hstep idx _
    (procLoop_post_notfires stepF firesF hstep hpost hother hext idx c)

theorem procLoop_pres_present {V : Type}
    (stepF : String → List String → List (String × V) → List SendCall × List (String × V))
    (hpres : ∀ g h chats c, alookup c h ≠ none → alookup (stepF g chats c).2 h ≠ none) :
    ∀ (idx : List (String × List String)) (c : List (String × V)) (h : String),
      alookup c h ≠ none → alookup (procLoop stepF idx c).2.2 h ≠ none
  | [], _, _, h0 => h0
  | (g, chats) :: rest, c, h, h0 => by
    simp only [procLoop]
    exact procLoop_pres_present stepF hpres rest _ h (hpres g h chats c h0)

theorem procLoop_send_present {V : Type}
    (stepF : String → List String → List (String × V) → List SendCall × List (String × V))
    (hpres : ∀ g h chats c, alookup c h ≠ none → alookup (stepF g chats c).2 h ≠ none)
    (hhandle : ∀ g chats c s, s ∈ (stepF g chats c).1 → s.handle = g)
    (hsend : ∀ g chats c, (stepF g chats c).1 ≠ [] → alookup (stepF g chats c).2 g ≠ none) :
    ∀ (idx : List (String × List String)) (c : List (String × V)) (s : SendCall),
      s ∈ (procLoop stepF idx c).1 →
      alookup (procLoop stepF idx c).2.2 s.handle ≠ none
  | [], _, s, hs => by simp [procLoop] at hs
  | (g, chats) :: rest, c, s, hs => by
    simp only [procLoop, List.mem_append] at hs ⊢
    rcases hs with hs | hs
    · have hg : s.handle = g := hhandle g chats c s hs
      rw [hg]
      refine procLoop_pres_present stepF hpres rest _ g ?_
      exact hsend g chats c (by intro hemp; rw [hemp] at hs; simp at hs)
    · exact procLoop_send_present stepF hpres hhandle hsend rest _ s hs

/-! ## Full cycles of the stalker loop (the `while True` body) -/

/-- Everything one cycle of `stalker_logic` reads from the outside world:
the two toggles, the two tracking dictionaries (re-read fresh each cycle,
so concurrent mutation simply shows up as a different snapshot), the fetch
results per handle, and which chat deliveries succeed. -/
structure CycleEnv where
  cfActive : Bool
  acActive : Bool
  stalkCF : List (String × List String)
  stalkAC : List (String × List String)
  fetchCF : String → Option CFResp
  fetchAC : String → Option (List ACSub)
  sendOk : String → Bool

/-- The stalker's own mutable state: `last_solved_cf` / `last_solved_ac`. -/
structure StalkerState where
  lastCF : List (String × Option Int)
  lastAC : List (String × ACId)
deriving DecidableEq, Repr

/-- Observable effects of one cycle. -/
structure CycleOut where
  cfFetched : List String
  cfSends : List SendCall
  acFetched : List String
  acSends : List SendCall
deriving DecidableEq, Repr

/-- One pass of the `while True` loop (lines 182-258): the CF phase runs
only `if stalking_active_cf`, then the AC phase only `if
stalking_active_ac`; each builds its reverse index and polls it. -/
def stalkerCycle (env : CycleEnv) (st : StalkerState) : CycleOut × StalkerState :=
  let cfr := if env.cfActive then
      cfProcess env.fetchCF env.sendOk (buildIndex env.stalkCF) st.lastCF
    else ([], [], st.lastCF)
  let acr := if env.acActive then
      acProcess env.fetchAC env.sendOk (buildIndex env.stalkAC) st.lastAC
    else ([], [], st.lastAC)
  (⟨cfr.2.1, cfr.1, acr.2.1, acr.1⟩, ⟨cfr.2.2, acr.2.2⟩)

/-- Any finite number of consecutive cycles. -/
def runCycles : List CycleEnv → StalkerState → List CycleOut × StalkerState
  | [], st => ([], st)
  | e :: es, st =>
    ((stalkerCycle e st).1 :: (runCycles es (stalkerCycle e st).2).1,
     (runCycles es (stalkerCycle e st).2).2)

/-! ### Cycle lemmas -/

theorem cfProcess_idem (fetch : String → Option CFResp) (sendOk : String → Bool)
    (idx : List (String × List String)) (cache : List (String × Option Int)) :
    cfProcess fetch sendOk idx (cfProcess fetch sendOk idx cache).2.2 =
      ([], idx.map Prod.fst, (cfProcess fetch sendOk idx cache).2.2) := by
  unfold cfProcess
  exact procLoop_idem _ (fun h c => cfFires (fetch h) c h)
    (fun h chats c hf => cfHandleStep_not_fires (fetch h) c h chats sendOk hf)
    (fun h chats c => cfHandleStep_post_not_fires (fetch h) c h chats sendOk)
    (fun g h chats c hgh => cfHandleStep_lookup_other (fetch g) c g chats sendOk h hgh)
    (fun h c c' hl => cfFires_ext (fetch h) c c' h hl)
    idx cache

theorem acProcess_idem (fetch : String → Option (List ACSub)) (sendOk : String → Bool)
    (idx : List (String × List String)) (cache : List (String × ACId)) :
    acProcess fetch sendOk idx (acProcess fetch sendOk idx cache).2.2 =
      ([], idx.map Prod.fst, (acProcess fetch sendOk idx cache).2.2) := by
  unfold acProcess
  exact procLoop_idem _ (fun h c => acFires (fetch h) c h)
    (fun h chats c hf => acHandleStep_not_fires (fetch h) c h chats sendOk hf)
    (fun h chats c => acHandleStep_post_not_fires (fetch h) c h chats sendOk)
    (fun g h chats c hgh => acHandleStep_lookup_other (fetch g) c g chats sendOk h hgh)
    (fun h c c' hl => acFires_ext (fetch h) c c' h hl)
    idx cache

theorem stalkerCycle_cf_off (env : CycleEnv) (st : StalkerState)
    (h : env.cfActive = false) :
    (stalkerCycle env st).1.cfFetched = [] ∧ (stalkerCycle env st).1.cfSends = [] ∧
      (stalkerCycle env st).2.lastCF = st.lastCF := by
  simp [stalkerCycle, h]

theorem stalkerCycle_ac_off (env : CycleEnv) (st : StalkerState)
    (h : env.acActive = false) :
    (stalkerCycle env st).1.acFetched = [] ∧ (stalkerCycle env st).1.acSends = [] ∧
      (stalkerCycle env st).2.lastAC = st.lastAC := by
  simp [stalkerCycle, h]

theorem stalkerCycle_repeat_silent (env : CycleEnv) (st : StalkerState) :
    (stalkerCycle env (stalkerCycle env st).2).1.cfSends = [] ∧
      (stalkerCycle env (stalkerCycle env st).2).1.acSends = [] := by
  constructor
  · by_cases hcf : env.cfActive
    · simp only [stalkerCycle, hcf, if_true]
      exact congrArg Prod.fst (cfProcess_idem env.fetchCF env.sendOk
        (buildIndex env.stalkCF) st.lastCF)
    · simp [stalkerCycle, hcf]
  · by_cases hac : env.acActive
    · simp only [stalkerCycle, hac, if_true]
      exact congrArg (fun x => x.1) (acProcess_idem env.fetchAC env.sendOk
        (buildIndex env.stalkAC) st.lastAC)
    · simp [stalkerCycle, hac]

theorem cfProcess_pres_present (fetch : String → Option CFResp) (sendOk : String → Bool)
    (idx : List (String × List String)) (cache : List (String × Option Int)) (h : String)
    (hp : alookup cache h ≠ none) :
    alookup (cfProcess fetch sendOk idx cache).2.2 h ≠ none := by
  unfold cfProcess
  exact procLoop_pres_present _
    (fun g hh chats c hc => cfHandleStep_pres_present (fetch g) c g chats sendOk hh hc)
    idx cache h hp

theorem acProcess_pres_present (fetch : String → Option (List ACSub)) (sendOk : String → Bool)
    (idx : List (String × List String)) (cache : List (String × ACId)) (h : String)
    (hp : alookup cache h ≠ none) :
    alookup (acProcess fetch sendOk idx cache).2.2 h ≠ none := by
  unfold acProcess
  exact procLoop_pres_present _
    (fun g hh chats c hc => acHandleStep_pres_present (fetch g) c g chats sendOk hh hc)
    idx cache h hp

theorem cfProcess_send_present (fetch : String → Option CFResp) (sendOk : String → Bool)
    (idx : List (String × List String)) (cache : List (String × Option Int)) (s : SendCall)
    (hs : s ∈ (cfProcess fetch sendOk idx cache).1) :
    alookup (cfProcess fetch sendOk idx cache).2.2 s.handle ≠ none := by
  unfold cfProcess at hs ⊢
  exact procLoop_send_present _
    (fun g hh chats c hc => cfHandleStep_pres_present (fetch g) c g chats sendOk hh hc)
    (fun g chats c s' hs' => (cfHandleStep_send_shape (fetch g) c g chats sendOk s' hs').1)
    (fun g chats c hne => cfHandleStep_sends_present (fetch g) c g chats sendOk hne)
    idx cache s hs

theorem acProcess_send_present (fetch : String → Option (List ACSub)) (sendOk : String → Bool)
    (idx : List (String × List String)) (cache : List (String × ACId)) (s : SendCall)
    (hs : s ∈ (acProcess fetch sendOk idx cache).1) :
    alookup (acProcess fetch sendOk idx cache).2.2 s.handle ≠ none := by
  unfold acProcess at hs ⊢
  exact procLoop_send_present _
    (fun g hh chats c hc => acHandleStep_pres_present (fetch g) c g chats sendOk hh hc)
    (fun g chats c s' hs' => (acHandleStep_send_shape (fetch g) c g chats sendOk s' hs').1)
    (fun g chats c hne => acHandleStep_sends_present (fetch g) c g chats sendOk hne)
    idx cache s hs

theorem stalkerCycle_pres_present_cf (env : CycleEnv) (st : StalkerState) (h : String)
    (hp : alookup st.lastCF h ≠ none) :
    alookup (stalkerCycle env st).2.lastCF h ≠ none := by
  by_cases hcf : env.cfActive
  · simp only [stalkerCycle, hcf, if_true]
    exact cfProcess_pres_present env.fetchCF env.sendOk (buildIndex env.stalkCF)
      st.lastCF h hp
  · simp only [stalkerCycle, if_neg hcf]
    exact hp

theorem stalkerCycle_pres_present_ac (env : CycleEnv) (st : StalkerState) (h : String)
    (hp : alookup st.lastAC h ≠ none) :
    alookup (stalkerCycle env st).2.lastAC h ≠ none := by
  by_cases hac : env.acActive
  · simp only [stalkerCycle, hac, if_true]
    exact acProcess_pres_present env.fetchAC env.sendOk (buildIndex env.stalkAC)
      st.lastAC h hp
  · simp only [stalkerCycle, if_neg hac]
    exact hp

theorem stalkerCycle_send_present_cf (env : CycleEnv) (st : StalkerState) (s : SendCall)
    (hs : s ∈ (stalkerCycle env st).1.cfSends) :
    alookup (stalkerCycle env st).2.lastCF s.handle ≠ none := by
  by_cases hcf : env.cfActive
  · simp only [stalkerCycle, hcf, if_true] at hs ⊢
    exact cfProcess_send_present env.fetchCF env.sendOk (buildIndex env.stalkCF)
      st.lastCF s hs
  · simp only [stalkerCycle, if_neg hcf] at hs
    simp at hs

theorem stalkerCycle_send_present_ac (env : CycleEnv) (st : StalkerState) (s : SendCall)
    (hs : s ∈ (stalkerCycle env st).1.acSends) :
    alookup (stalkerCycle env st).2.lastAC s.handle ≠ none := by
  by_cases hac : env.acActive
  · simp only [stalkerCycle, hac, if_true] at hs ⊢
    exact acProcess_send_present env.fetchAC env.sendOk (buildIndex env.stalkAC)
      st.lastAC s hs
  · simp only [stalkerCycle, if_neg hac] at hs
    simp at hs

theorem runCycles_pres_present_cf :
    ∀ (envs : List CycleEnv) (st : StalkerState) (h : String),
      alookup st.lastCF h ≠ none → alookup (runCycles envs st).2.lastCF h ≠ none
  | [], _, _, hp => hp
  | e :: es, st, h, hp => by
    simp only [runCycles]
    exact runCycles_pres_present_cf es _ h (stalkerCycle_pres_present_cf e st h hp)

theorem runCycles_pres_present_ac :
    ∀ (envs : List CycleEnv) (st : StalkerState) (h : String),
      alookup st.lastAC h ≠ none → alookup (runCycles envs st).2.lastAC h ≠ none
  | [], _, _, hp => hp
  | e :: es, st, h, hp => by
    simp only [runCycles]
    exact runCycles_pres_present_ac es _ h (stalkerCycle_pres_present_ac e st h hp)

theorem runCycles_absent_no_cf_sends :
    ∀ (envs : List CycleEnv) (st : StalkerState) (h : String),
      alookup (runCycles envs st).2.lastCF h = none →
      ((runCycles envs st).1.all fun o => o.cfSends.all fun s => !(s.handle == h)) = true
  | [], _, _, _ => rfl
  | e :: es, st, h, hend => by
    simp only [runCycles] at hend ⊢
    rw [List.all_cons]
    have hmid : alookup (stalkerCycle e st).2.lastCF h = none := by
      by_contra hc
      exact runCycles_pres_present_cf es _ h hc hend
    refine (Bool.and_eq_true _ _).mpr ⟨?_, runCycles_absent_no_cf_sends es _ h hend⟩
    rw [List.all_eq_true]
    intro s hs
    have := stalkerCycle_send_present_cf e st s hs
    simp only [Bool.not_eq_eq_eq_not, Bool.not_true, beq_eq_false_iff_ne, ne_eq]
    intro hsh
    rw [hsh] at this
    exact this hmid

theorem runCycles_absent_no_ac_sends :
    ∀ (envs : List CycleEnv) (st : StalkerState) (h : String),
      alookup (runCycles envs st).2.lastAC h = none →
      ((runCycles envs st).1.all fun o => o.acSends.all fun s => !(s.handle == h)) = true
  | [], _, _, _ => rfl
  | e :: es, st, h, hend => by
    simp only [runCycles] at hend ⊢
    rw [List.all_cons]
    have hmid : alookup (stalkerCycle e st).2.lastAC h = none := by
      by_contra hc
      exact runCycles_pres_present_ac es _ h hc hend
    refine (Bool.and_eq_true _ _).mpr ⟨?_, runCycles_absent_no_ac_sends es _ h hend⟩
    rw [List.all_eq_true]
    intro s hs
    have := stalkerCycle_send_present_ac e st s hs
    simp only [Bool.not_eq_eq_eq_not, Bool.not_true, beq_eq_false_iff_ne, ne_eq]
    intro hsh
    rw [hsh] at this
    exact this hmid

/-! ## Registry lemmas and claims -/

theorem selMap_putMap (st : Registry) (p : String) (m : List (String × List String)) :
    selMap (putMap st p m) p = m := by
  unfold selMap putMap
  by_cases hp : p = "cf" <;> simp [hp]

theorem putMap_selMap (st : Registry) (p : String) :
    putMap st p (selMap st p) = st := by
  unfold selMap putMap
  by_cases hp : p = "cf" <;> simp [hp]

theorem add_stalk_core (st : Registry) (c : Int) (j h : String)
    (hnm : h ∉ list_stalks st c j) :
    add_stalk st c j h =
      (true, putMap st j
        (mapUpdate (stSetdefault (selMap st j) (toString c)) (toString c)
          fun l => l ++ [h])) ∧
    alookup (selMap (add_stalk st c j h).2 j) (toString c) =
      some (list_stalks st c j ++ [h]) := by
  have hm : alookup (stSetdefault (selMap st j) (toString c)) (toString c) =
      some ((alookup (selMap st j) (toString c)).getD []) :=
    alookup_stSetdefault_self _ _
  have hcur : (alookup (stSetdefault (selMap st j) (toString c)) (toString c)).getD []
      = list_stalks st c j := by
    rw [hm]
    rfl
  have hstep : add_stalk st c j h =
      (true, putMap st j
        (mapUpdate (stSetdefault (selMap st j) (toString c)) (toString c)
          fun l => l ++ [h])) := by
    unfold add_stalk
    rw [if_neg (by rw [hcur]; exact hnm)]
  refine ⟨hstep, ?_⟩
  rw [hstep]
  simp only [selMap_putMap]
  rw [alookup_mapUpdate_self, hm]
  rfl

theorem add_stalk_mem (st : Registry) (c : Int) (j h : String)
    (hmem : h ∈ list_stalks st c j) :
    add_stalk st c j h = (false, st) := by
  have hm : alookup (stSetdefault (selMap st j) (toString c)) (toString c) =
      some ((alookup (selMap st j) (toString c)).getD []) :=
    alookup_stSetdefault_self _ _
  have hcur : (alookup (stSetdefault (selMap st j) (toString c)) (toString c)).getD []
      = list_stalks st c j := by
    rw [hm]
    rfl
  have hpresent : alookup (selMap st j) (toString c) ≠ none := by
    intro hn
    rw [list_stalks, hn] at hmem
    simp at hmem
  have hsd : stSetdefault (selMap st j) (toString c) = selMap st j := by
    unfold stSetdefault
    cases hx : alookup (selMap st j) (toString c) with
    | none => exact absurd hx hpresent
    | some l => rfl
  unfold add_stalk
  rw [if_pos (by rw [hcur]; exact hmem), hsd, putMap_selMap]

/-- C10: `follow`, `unfollow` and `list` route to the Codeforces mapping
exactly when the judge string is `"cf"`; every other judge value (for
example `"CF"` or `"atcoder"`) is silently routed to the AtCoder mapping and
behaves exactly as `"ac"` would, leaving the CF mapping untouched — no
judge value is rejected. -/
theorem claim_C10 (st : Registry) (c : Int) (j h : String) (hj : j ≠ "cf") :
    add_stalk st c j h = add_stalk st c "ac" h ∧
    remove_stalk st c j h = remove_stalk st c "ac" h ∧
    list_stalks st c j = list_stalks st c "ac" ∧
    (add_stalk st c j h).2.cf = st.cf ∧
    (remove_stalk st c j h).2.cf = st.cf ∧
    (add_stalk st c "cf" h).2.ac = st.ac := by
  have hsel : selMap st j = selMap st "ac" := by
    unfold selMap
    rw [if_neg hj]
    rfl
  have hput : ∀ m, putMap st j m = putMap st "ac" m := by
    intro m
    unfold putMap
    rw [if_neg hj]
    rfl
  have hputcf : ∀ m, (putMap st j m).cf = st.cf := by
    intro m
    unfold putMap
    rw [if_neg hj]
  refine ⟨?_, ?_, ?_, ?_, ?_, ?_⟩
  · unfold add_stalk
    rw [hsel]
    by_cases hc : h ∈ (alookup (stSetdefault (selMap st "ac") (toString c)) (toString c)).getD []
    · rw [if_pos hc, if_pos hc, hput]
    · rw [if_neg hc, if_neg hc, hput]
  · simp only [remove_stalk]
    rw [hsel]
    cases hx : alookup (selMap st "ac") (toString c) with
    | none => rfl
    | some l =>
      by_cases hc : h ∈ l
      · simp [hc, hput]
      · simp [hc]
  · unfold list_stalks
    rw [hsel]
  · unfold add_stalk
    by_cases hc : h ∈ (alookup (stSetdefault (selMap st j) (toString c)) (toString c)).getD []
    · rw [if_pos hc]
      exact hputcf _
    · rw [if_neg hc]
      exact hputcf _
  · simp only [remove_stalk]
    cases hx : alookup (selMap st j) (toString c) with
    | none => rfl
    | some l =>
      by_cases hc : h ∈ l
      · simp [hc, hputcf]
      · simp [hc]
  · unfold add_stalk
    have hac : ∀ m, (putMap st "cf" m).ac = st.ac := by
      intro m
      unfold putMap
      rw [if_pos rfl]
    by_cases hc : h ∈ (alookup (stSetdefault (selMap st "cf") (toString c)) (toString c)).getD []
    · rw [if_pos hc]
      exact hac _
    · rw [if_neg hc]
      exact hac _

/-- Witness for C10 at the judge string `"CF"` (capitalised), an empty
registry, chat 100 and handle alice. -/
theorem claim_C10_witness :
    add_stalk ⟨[], []⟩ 100 "CF" "alice" = add_stalk ⟨[], []⟩ 100 "ac" "alice" ∧
    (add_stalk ⟨[], []⟩ 100 "CF" "alice").2.cf = [] :=
  ⟨(claim_C10 ⟨[], []⟩ 100 "CF" "alice" (by decide)).1,
   (claim_C10 ⟨[], []⟩ 100 "CF" "alice" (by decide)).2.2.2.1⟩

theorem remove_stalk_absent (st : Registry) (c : Int) (j h : String)
    (hnm : h ∉ list_stalks st c j) :
    remove_stalk st c j h = (false, st) := by
  simp only [remove_stalk]
  cases hx : alookup (selMap st j) (toString c) with
  | none => rfl
  | some l =>
    have hl : h ∉ l := by
      rw [list_stalks, hx] at hnm
      exact hnm
    simp [hl]

/-- C4: follow/unfollow idempotence.  Starting from any state where `h` is
not yet tracked by chat `c` on judge `j`: `follow` twice returns `true`
then `false` (the second call leaving the state unchanged) and the tracking
list then holds exactly one copy of `h`; `unfollow` of an absent handle
returns `false` and changes nothing; and when the list starts empty, one
`follow` followed by one `unfollow` of the same handle leaves the list
empty. -/
theorem claim_C4 (st : Registry) (c : Int) (j h : String) :
    (h ∉ list_stalks st c j →
      (add_stalk st c j h).1 = true ∧
      add_stalk (add_stalk st c j h).2 c j h = (false, (add_stalk st c j h).2) ∧
      (list_stalks (add_stalk st c j h).2 c j).count h = 1) ∧
    (h ∉ list_stalks st c j → remove_stalk st c j h = (false, st)) ∧
    (list_stalks st c j = [] →
      list_stalks (remove_stalk (add_stalk st c j h).2 c j h).2 c j = []) := by
  refine ⟨fun hnm => ?_, fun hnm => remove_stalk_absent st c j h hnm, fun hemp => ?_⟩
  · obtain ⟨hstep, hlook⟩ := add_stalk_core st c j h hnm
    have hlist : list_stalks (add_stalk st c j h).2 c j = list_stalks st c j ++ [h] := by
      rw [list_stalks, hlook]
      rfl
    refine ⟨by rw [hstep], ?_, ?_⟩
    · exact add_stalk_mem (add_stalk st c j h).2 c j h (by rw [hlist]; simp)
    · rw [hlist]
      simp [List.count_append, List.count_eq_zero.mpr hnm]
  · have hnm : h ∉ list_stalks st c j := by
      rw [hemp]
      simp
    obtain ⟨hstep, hlook⟩ := add_stalk_core st c j h hnm
    rw [hemp] at hlook
    simp only [List.nil_append] at hlook
    have hrem : remove_stalk (add_stalk st c j h).2 c j h =
        (true, putMap (add_stalk st c j h).2 j
          (mapUpdate (selMap (add_stalk st c j h).2 j) (toString c)
            fun l => l.erase h)) := by
      simp only [remove_stalk]
      rw [hlook]
      simp
    rw [hrem]
    rw [list_stalks, selMap_putMap, alookup_mapUpdate_self, hlook]
    simp

/-- Witness for C4: empty registry, chat 100, judge string cf, handle
alice; all three hypotheses hold there. -/
theorem claim_C4_witness :
    ((add_stalk ⟨[], []⟩ 100 "cf" "alice").1 = true ∧
      add_stalk (add_stalk ⟨[], []⟩ 100 "cf" "alice").2 100 "cf" "alice" =
        (false, (add_stalk ⟨[], []⟩ 100 "cf" "alice").2) ∧
      (list_stalks (add_stalk ⟨[], []⟩ 100 "cf" "alice").2 100 "cf").count "alice" = 1) ∧
    remove_stalk ⟨[], []⟩ 100 "cf" "alice" = (false, ⟨[], []⟩) ∧
    list_stalks
      (remove_stalk (add_stalk ⟨[], []⟩ 100 "cf" "alice").2 100 "cf" "alice").2
      100 "cf" = [] :=
  ⟨(claim_C4 ⟨[], []⟩ 100 "cf" "alice").1 (by decide),
   (claim_C4 ⟨[], []⟩ 100 "cf" "alice").2.1 (by decide),
   (claim_C4 ⟨[], []⟩ 100 "cf" "alice").2.2 (by decide)⟩

/-! ## Fetch client claims -/

/-- C3: backoff termination and shape.  If every attempt fails,
`safe_get_json` returns its failure value after exactly `retries` attempts
(never looping), with inter-attempt delays `delay, 2*delay, 4*delay, ...`
(each double the previous); if the first success is at attempt `k ≤
retries`, the decoded body of that attempt is returned immediately after
`k` attempts. -/
theorem claim_C3 (outcome : Nat → Except Unit PyJson) (retries delay : Nat)
    (hr : 1 ≤ retries) :
    ((∀ i, outcome i = .error ()) →
      safe_get_json outcome retries delay =
        (PyJson.null, retries, (List.range (retries - 1)).map fun i => delay * 2 ^ i)) ∧
    (∀ k v, 1 ≤ k → k ≤ retries → (∀ i, i < k → outcome i = .error ()) →
      outcome k = .ok v →
      safe_get_json outcome retries delay =
        (v, k, (List.range (k - 1)).map fun i => delay * 2 ^ i)) := by
  constructor
  · intro hall
    rw [safe_get_json, sgj_go_allfail outcome hall retries 1 delay hr]
    have h1 : 1 + retries - 1 = retries := by omega
    rw [h1]
  · intro k v hk1 hkr hfail hok
    rw [safe_get_json, sgj_go_firstok outcome v retries 1 delay k (by omega) hk1
      (by omega) (fun i _ hik => hfail i hik) hok]

/-- Witness for C3: with the default `retries = 3`, `delay = 1`: an
always-failing fetch does exactly 3 attempts, sleeps 1 s then 2 s, and
returns None; a fetch succeeding on attempt 2 returns that body after one
1-second sleep. -/
theorem claim_C3_witness :
    safe_get_json (fun _ => Except.error ()) 3 1 = (PyJson.null, 3, [1, 2]) ∧
    safe_get_json (fun i => if i = 2 then Except.ok (PyJson.num 7) else Except.error ())
      3 1 = (PyJson.num 7, 2, [1]) := by
  constructor
  · exact (claim_C3 (fun _ => Except.error ()) 3 1 (by decide)).1 (fun i => rfl)
  · exact (claim_C3 _ 3 1 (by decide)).2 2 (PyJson.num 7) (by decide) (by decide)
      (fun i hi => by rw [if_neg (by omega : ¬ i = 2)]) (by rw [if_pos rfl])

/-- C7 is refuted: the value returned after exhausting all attempts is
Python None, which is exactly what a body `null` decodes to — running the
client against an always-failing endpoint and against an endpoint whose
body is `null` produces the same Python value, so a caller cannot tell
them apart. -/
theorem claim_C7_counterexample :
    (safe_get_json (fun _ => Except.error ()) 3 1).1 = PyJson.null ∧
    (safe_get_json (fun _ => Except.ok PyJson.null) 3 1).1 = PyJson.null :=
  ⟨rfl, rfl⟩

/-- C7 (amended): after exhausting all attempts the fetch returns Python
None — the same value a JSON `null` body decodes to, not a distinct
failure value; "no data" and "fetch failed" are indistinguishable to
callers (which treat both as nothing to report). -/
theorem claim_C7 (retries delay : Nat) (hr : 1 ≤ retries)
    (outcome : Nat → Except Unit PyJson) (hall : ∀ i, outcome i = .error ())
    (outNull : Nat → Except Unit PyJson) (hnull : ∀ i, outNull i = .ok PyJson.null) :
    (safe_get_json outcome retries delay).1 = PyJson.null ∧
    (safe_get_json outNull retries delay).1 = (safe_get_json outcome retries delay).1 := by
  have h1 : (safe_get_json outcome retries delay).1 = PyJson.null := by
    rw [safe_get_json, sgj_go_allfail outcome hall retries 1 delay hr]
  refine ⟨h1, ?_⟩
  rw [h1]
  cases retries with
  | zero => exact absurd hr (by omega)
  | succ r =>
    rw [safe_get_json]
    simp [sgj_go, hnull 1]

/-- Witness for C7 at `retries = 3`, `delay = 1`. -/
theorem claim_C7_witness :
    (safe_get_json (fun _ => Except.ok PyJson.null) 3 1).1 =
      (safe_get_json (fun _ => Except.error ()) 3 1).1 :=
  (claim_C7 3 1 (by decide) (fun _ => Except.error ()) (fun i => rfl)
    (fun _ => Except.ok PyJson.null) (fun i => rfl)).2

/-! ## Stalker claims: per-handle level -/

/-- C2: fan-out completeness under partial delivery failure.  On a CF
new-solve event for `handle` tracked by chats `a`, `b`, `c` where delivery
to `b` raises and the others succeed: all three sends are attempted in
order (the failure is caught per chat, aborting nothing), `a` and `c` are
delivered while `b` is not, the cache is updated once to the new
identifier, and a second cycle seeing the same fetch result sends nothing
at all — in particular `b` is not retried. -/
theorem claim_C2 (res : Option CFResp) (cache : List (String × Option Int))
    (handle : String) (a b c : String) (sendOk : String → Bool)
    (hfire : cfFires res cache handle = true)
    (ha : sendOk a = true) (hb : sendOk b = false) (hc : sendOk c = true) :
    ∃ r sub rest, res = some r ∧ r.result = sub :: rest ∧
      cfHandleStep res cache handle [a, b, c] sendOk =
        ([⟨handle, a, cfMessage handle sub.problem, true, true⟩,
          ⟨handle, b, cfMessage handle sub.problem, true, false⟩,
          ⟨handle, c, cfMessage handle sub.problem, true, true⟩],
         listInsert cache handle sub.id) ∧
      alookup (cfHandleStep res cache handle [a, b, c] sendOk).2 handle = some sub.id ∧
      cfHandleStep res (cfHandleStep res cache handle [a, b, c] sendOk).2 handle
        [a, b, c] sendOk =
        ([], (cfHandleStep res cache handle [a, b, c] sendOk).2) := by
  obtain ⟨r, sub, rest, hres, hr, hs, hv, hd, hstep⟩ :=
    cfHandleStep_fires res cache handle hfire
  refine ⟨r, sub, rest, hres, hr, ?_, ?_, ?_⟩
  · rw [hstep [a, b, c] sendOk]
    simp [ha, hb, hc]
  · rw [hstep [a, b, c] sendOk]
    exact alookup_listInsert_self cache handle sub.id
  · exact cfHandleStep_not_fires res _ handle [a, b, c] sendOk
      (cfHandleStep_post_not_fires res cache handle [a, b, c] sendOk)

/-- Concrete inputs for the C2 witness: a fresh accepted submission and a
sink that fails exactly for chat 2. -/
def respC2 : CFResp := ⟨some "OK", [⟨some 555, some "OK", ⟨1, "A", some "Sum", some 800⟩⟩]⟩

def sendOkC2 : String → Bool := fun ch => !(ch == "2")

/-- Witness for C2: chats 1, 2, 3 with chat 2 failing. -/
theorem claim_C2_witness :
    (cfHandleStep (some respC2) [] "alice" ["1", "2", "3"] sendOkC2).1.map
        (fun s => (s.chat, s.delivered)) = [("1", true), ("2", false), ("3", true)] ∧
    alookup (cfHandleStep (some respC2) [] "alice" ["1", "2", "3"] sendOkC2).2 "alice" =
      some (some 555) ∧
    cfHandleStep (some respC2) (cfHandleStep (some respC2) [] "alice" ["1", "2", "3"] sendOkC2).2
      "alice" ["1", "2", "3"] sendOkC2 =
      ([], (cfHandleStep (some respC2) [] "alice" ["1", "2", "3"] sendOkC2).2) := by
  obtain ⟨r, sub, rest, hres, hr, hstep, hlook, hsecond⟩ :=
    claim_C2 (some respC2) [] "alice" "1" "2" "3" sendOkC2 (by decide) (by decide)
      (by decide) (by decide)
  have hrr : r = respC2 := by injection hres with h; exact h.symm
  subst hrr
  have hsub : sub = ⟨some 555, some "OK", ⟨1, "A", some "Sum", some 800⟩⟩ := by
    have : respC2.result = [⟨some 555, some "OK", ⟨1, "A", some "Sum", some 800⟩⟩] := rfl
    rw [this] at hr
    injection hr with h1 h2
    exact h1.symm
  subst hsub
  refine ⟨?_, ?_, hsecond⟩
  · rw [hstep]
    rfl
  · rw [hlook]

/-- Modelled from the spec for comparison with the code (C9): the spec
derives the AtCoder identifier as "the native id when present, otherwise
the composite string contest_id#problem_id#epoch_second". -/
def acDerivedIdSpec (sub : ACSub) : ACId :=
  match sub.id with
  | some n => ACId.num n
  | none => ACId.str (acComposite sub)

/-- An AtCoder submission whose native `id` is present but `0`. -/
def subC9 : ACSub := ⟨some 0, some "abc", some "abc_a", some "AC", some 100, none⟩

/-- C9 is refuted at a submission with native id `0`: per the claim the
derived identifier is the native id `0`, which equals the cached value, so
no notification should fire — but the code's `sub.get('id') or ...` treats
`0` as falsy, derives the composite string instead, and fires a
notification. -/
theorem claim_C9_counterexample :
    acDerivedIdSpec subC9 = ACId.num 0 ∧
    alookup [("alice", ACId.num 0)] "alice" = some (acDerivedIdSpec subC9) ∧
    acDerivedId subC9 = ACId.str "abc#abc_a#100" ∧
    (acHandleStep (some [subC9]) [("alice", ACId.num 0)] "alice" ["100"]
      (fun _ => true)).1.length = 1 := by
  refine ⟨rfl, rfl, rfl, ?_⟩
  decide

/-- C9 (amended): the inspected submission is the last element of the
returned sequence, and — for a handle with at least one subscribed chat —
a notification fires exactly when that submission's `result` is `"AC"` and
the code's derived identifier (the native id when present and truthy,
i.e. nonzero; otherwise the composite contest_id#problem_id#epoch_second
string) differs from the cached identifier. -/
theorem claim_C9 (res : Option (List ACSub)) (cache : List (String × ACId))
    (handle : String) (chats : List String) (sendOk : String → Bool)
    (hch : chats ≠ []) :
    (acHandleStep res cache handle chats sendOk).1 ≠ [] ↔
      ∃ subs sub, res = some subs ∧ subs.getLast? = some sub ∧
        sub.result = some "AC" ∧ alookup cache handle ≠ some (acDerivedId sub) := by
  constructor
  · intro hne
    by_cases hf : acFires res cache handle = true
    · obtain ⟨subs, sub, hres, hl, hv, hd, _⟩ := acHandleStep_fires res cache handle hf
      exact ⟨subs, sub, hres, hl, hv, hd⟩
    · rw [acHandleStep_not_fires res cache handle chats sendOk (by simpa using hf)] at hne
      simp at hne
  · rintro ⟨subs, sub, rfl, hl, hv, hd⟩
    have hf : acFires (some subs) cache handle = true := by
      rw [acFires_last subs sub hl]
      simp [hv, hd]
    obtain ⟨subs', sub', hres, hl', hv', hd', hstep⟩ :=
      acHandleStep_fires (some subs) cache handle hf
    rw [hstep chats sendOk]
    simpa using hch

/-- A well-formed AtCoder accepted submission used by the C9 witness. -/
def subC9w : ACSub := ⟨some 7, some "abc", some "abc_a", some "AC", some 100, none⟩

/-- Witness for C9 with one subscribed chat and an empty cache. -/
theorem claim_C9_witness :
    (acHandleStep (some [subC9w]) [] "alice" ["100"] (fun _ => true)).1 ≠ [] :=
  (claim_C9 (some [subC9w]) [] "alice" ["100"] (fun _ => true) (by decide)).mpr
    ⟨[subC9w], subC9w, rfl, by decide, rfl, by decide⟩

/-! ## Stalker claims: message content (C8) -/

/-- An AtCoder accepted submission with letter-only identifiers, used to
exhibit a difficulty-free AC notification. -/
def subC8 : ACSub := ⟨some 7, some "abc", some "abc_x", some "AC", some 5, none⟩

/-- C8 is refuted for Judge B: the AC notification produced below is a real
send of the loop, yet its text contains no digit at all, no `???`
placeholder and no `Unknown` placeholder — AC messages simply carry no
difficulty information. -/
theorem claim_C8_counterexample :
    (acHandleStep (some [subC8]) [] "alice" ["100"] (fun _ => true)).1 =
      [⟨"alice", "100", acMessage "alice" subC8, true, true⟩] ∧
    ((acMessage "alice" subC8).data.all fun ch => !ch.isDigit) = true ∧
    strContains (acMessage "alice" subC8) "???" = false ∧
    strContains (acMessage "alice" subC8) "Unknown" = false := by
  refine ⟨by decide, by decide, by decide, by decide⟩

/-- C8 (amended): every notification is attempted with link preview
suppressed, and its text is the judge's message for the handle.  A Judge-A
(CF) message contains the fixed preamble, the `CF` tag, the escaped handle,
the escaped problem name, the escaped difficulty — the `???` placeholder
when the rating is absent — and the escaped problem link.  A Judge-B (AC)
message contains the fixed preamble, the `AC` tag, the escaped handle, the
escaped title and the escaped link, but no difficulty information at
all. -/
theorem claim_C8 :
    (∀ handle p,
      strContains (cfMessage handle p) "🐶 Вуф! Твоя верная собачка сообщает:\n\n" = true ∧
      strContains (cfMessage handle p) "<b>CF</b>" = true ∧
      strContains (cfMessage handle p) (esc handle) = true ∧
      strContains (cfMessage handle p) (esc (pyOptStr p.name)) = true ∧
      strContains (cfMessage handle p) (esc (cfDifficulty p)) = true ∧
      (p.rating = none → strContains (cfMessage handle p) "???" = true) ∧
      strContains (cfMessage handle p) (esc (cfLink p)) = true) ∧
    (∀ handle sub,
      strContains (acMessage handle sub) "🐶 Вуф! Твоя верная собачка сообщает:\n\n" = true ∧
      strContains (acMessage handle sub) "<b>AC</b>" = true ∧
      strContains (acMessage handle sub) (esc handle) = true ∧
      strContains (acMessage handle sub) (esc (acTitle sub)) = true ∧
      strContains (acMessage handle sub) (esc (acLink handle sub)) = true) ∧
    (∀ res cache handle chats sendOk s, s ∈ (cfHandleStep res cache handle chats sendOk).1 →
      s.disablePreview = true ∧ ∃ p, s.text = cfMessage handle p) ∧
    (∀ res cache handle chats sendOk s, s ∈ (acHandleStep res cache handle chats sendOk).1 →
      s.disablePreview = true ∧ ∃ sub, s.text = acMessage handle sub) := by
  refine ⟨fun handle p => ?_, fun handle sub => ?_,
    fun res cache handle chats sendOk s hs =>
      ⟨(cfHandleStep_send_shape res cache handle chats sendOk s hs).2.1,
       (cfHandleStep_send_shape res cache handle chats sendOk s hs).2.2⟩,
    fun res cache handle chats sendOk s hs =>
      ⟨(acHandleStep_send_shape res cache handle chats sendOk s hs).2.1,
       (acHandleStep_send_shape res cache handle chats sendOk s hs).2.2⟩⟩
  · refine ⟨?_, ?_, ?_, ?_, ?_, ?_, ?_⟩
    · unfold cfMessage
      apply strContains_append_left
      apply strContains_append_left
      apply strContains_append_left
      apply strContains_append_left
      apply strContains_append_left
      apply strContains_append_left
      apply strContains_append_left
      apply strContains_append_left
      apply strContains_append_left
      apply strContains_append_left
      apply strContains_append_left
      exact strContains_self _
    · unfold cfMessage
      apply strContains_append_left
      apply strContains_append_left
      apply strContains_append_left
      apply strContains_append_left
      apply strContains_append_left
      apply strContains_append_left
      apply strContains_append_left
      apply strContains_append_left
      apply strContains_append_left
      apply strContains_append_left
      apply strContains_append_right
      decide
    · unfold cfMessage
      apply strContains_append_left
      apply strContains_append_left
      apply strContains_append_left
      apply strContains_append_left
      apply strContains_append_left
      apply strContains_append_left
      apply strContains_append_left
      apply strContains_append_left
      apply strContains_append_left
      apply strContains_append_right
      exact strContains_self _
    · unfold cfMessage
      apply strContains_append_left
      apply strContains_append_left
      apply strContains_append_left
      apply strContains_append_left
      apply strContains_append_left
      apply strContains_append_right
      exact strContains_self _
    · unfold cfMessage
      apply strContains_append_left
      apply strContains_append_left
      apply strContains_append_left
      apply strContains_append_right
      exact strContains_self _
    · intro hrat
      unfold cfMessage
      apply strContains_append_left
      apply strContains_append_left
      apply strContains_append_left
      apply strContains_append_right
      unfold cfDifficulty
      rw [hrat]
      decide
    · unfold cfMessage
      apply strContains_append_left
      apply strContains_append_right
      exact strContains_self _
  · refine ⟨?_, ?_, ?_, ?_, ?_⟩
    · unfold acMessage
      apply strContains_append_left
      apply strContains_append_left
      apply strContains_append_left
      apply strContains_append_left
      apply strContains_append_left
      apply strContains_append_left
      apply strContains_append_left
      exact strContains_self _
    · unfold acMessage
      apply strContains_append_left
      apply strContains_append_left
      apply strContains_append_left
      apply strContains_append_left
      apply strContains_append_left
      apply strContains_append_left
      apply strContains_append_right
      decide
    · unfold acMessage
      apply strContains_append_left
      apply strContains_append_left
      apply strContains_append_left
      apply strContains_append_left
      apply strContains_append_left
      apply strContains_append_right
      exact strContains_self _
    · unfold acMessage
      apply strContains_append_left
      apply strContains_append_left
      apply strContains_append_left
      apply strContains_append_right
      exact strContains_self _
    · unfold acMessage
      apply strContains_append_left
      apply strContains_append_right
      exact strContains_self _

/-- A CF problem with no name and no rating, for the C8 witness. -/
def probC8 : CFProblem := ⟨1, "A", none, none⟩

def respC8 : CFResp := ⟨some "OK", [⟨some 9, some "OK", probC8⟩]⟩

/-- Witness for C8 at a rating-less problem and a concrete CF send. -/
theorem claim_C8_witness :
    strContains (cfMessage "alice" probC8) "???" = true ∧
    (⟨"alice", "100", cfMessage "alice" probC8, true, true⟩ : SendCall).disablePreview
      = true :=
  ⟨(claim_C8.1 "alice" probC8).2.2.2.2.2.1 rfl,
   (claim_C8.2.2.1 (some respC8) [] "alice" ["100"] (fun _ => true)
     ⟨"alice", "100", cfMessage "alice" probC8, true, true⟩ (by decide)).1⟩

/-! ## Stalker claims: toggle gating (C5) -/

theorem runCycles_cf_off :
    ∀ (envs : List CycleEnv) (st : StalkerState), (∀ e ∈ envs, e.cfActive = false) →
      ((runCycles envs st).1.all fun o => o.cfFetched.isEmpty && o.cfSends.isEmpty) = true ∧
      (runCycles envs st).2.lastCF = st.lastCF
  | [], _, _ => ⟨rfl, rfl⟩
  | e :: es, st, hall => by
    obtain ⟨hf, hs, hc⟩ := stalkerCycle_cf_off e st (hall e (by simp))
    have ih := runCycles_cf_off es (stalkerCycle e st).2 (fun x hx => hall x (by simp [hx]))
    simp only [runCycles, List.all_cons]
    refine ⟨?_, by rw [ih.2, hc]⟩
    rw [hf, hs]
    simpa using ih.1

theorem runCycles_ac_off :
    ∀ (envs : List CycleEnv) (st : StalkerState), (∀ e ∈ envs, e.acActive = false) →
      ((runCycles envs st).1.all fun o => o.acFetched.isEmpty && o.acSends.isEmpty) = true ∧
      (runCycles envs st).2.lastAC = st.lastAC
  | [], _, _ => ⟨rfl, rfl⟩
  | e :: es, st, hall => by
    obtain ⟨hf, hs, hc⟩ := stalkerCycle_ac_off e st (hall e (by simp))
    have ih := runCycles_ac_off es (stalkerCycle e st).2 (fun x hx => hall x (by simp [hx]))
    simp only [runCycles, List.all_cons]
    refine ⟨?_, by rw [ih.2, hc]⟩
    rw [hf, hs]
    simpa using ih.1

/-- C5: toggle gating.  Over any run of consecutive cycles during which a
judge's toggle is off at the start of its phase, that judge's phase is
skipped entirely: no handle of that judge is fetched, no notification of
that judge is sent, and that judge's LastSeen cache is bit-for-bit
unchanged at the end — for either judge. -/
theorem claim_C5 (envs : List CycleEnv) (st : StalkerState) :
    ((∀ e ∈ envs, e.cfActive = false) →
      ((runCycles envs st).1.all fun o => o.cfFetched.isEmpty && o.cfSends.isEmpty) = true ∧
      (runCycles envs st).2.lastCF = st.lastCF) ∧
    ((∀ e ∈ envs, e.acActive = false) →
      ((runCycles envs st).1.all fun o => o.acFetched.isEmpty && o.acSends.isEmpty) = true ∧
      (runCycles envs st).2.lastAC = st.lastAC) :=
  ⟨runCycles_cf_off envs st, runCycles_ac_off envs st⟩

/-- A cycle environment with both toggles off but a nonempty tracked set
and a fetch that would report a fresh accepted submission if it ran. -/
def envC5 : CycleEnv :=
  ⟨false, false, [("100", ["alice"])], [("100", ["bob"])],
   fun _ => some ⟨some "OK", [⟨some 1, some "OK", ⟨1, "A", some "Sum", some 800⟩⟩]⟩,
   fun _ => some [⟨some 3, some "abc", some "abc_a", some "AC", some 9, none⟩],
   fun _ => true⟩

/-- Witness for C5 over two consecutive toggled-off cycles. -/
theorem claim_C5_witness :
    (((runCycles [envC5, envC5] ⟨[], []⟩).1.all
        fun o => o.cfFetched.isEmpty && o.cfSends.isEmpty) = true ∧
      (runCycles [envC5, envC5] ⟨[], []⟩).2.lastCF = []) ∧
    (((runCycles [envC5, envC5] ⟨[], []⟩).1.all
        fun o => o.acFetched.isEmpty && o.acSends.isEmpty) = true ∧
      (runCycles [envC5, envC5] ⟨[], []⟩).2.lastAC = []) :=
  ⟨(claim_C5 [envC5, envC5] ⟨[], []⟩).1 (by decide),
   (claim_C5 [envC5, envC5] ⟨[], []⟩).2 (by decide)⟩

/-! ## Stalker claims: LastSeen invariant (C6) -/

/-- C6: the LastSeen invariant, for both judges.  First two parts: one
per-handle step either leaves a cache key unchanged, or the key is the
polled handle and the new value is exactly the identifier of the fetched
submission, whose verdict is the judge's accepted verdict, and which
differs from the previously stored identifier (the stored value being from
an earlier fetch, the new identifier is strictly newer in fetch order).
Last two parts: starting from the empty caches of process start, a handle
absent from a judge's cache after any number of cycles has never had a
notification sent for it. -/
theorem claim_C6 :
    (∀ res cache handle chats sendOk h,
      alookup (cfHandleStep res cache handle chats sendOk).2 h = alookup cache h ∨
      (h = handle ∧ ∃ r sub rest, res = some r ∧ r.result = sub :: rest ∧
        r.status = some "OK" ∧ sub.verdict = some "OK" ∧
        alookup (cfHandleStep res cache handle chats sendOk).2 h = some sub.id ∧
        sub.id ≠ Option.join (alookup cache h))) ∧
    (∀ res cache handle chats sendOk h,
      alookup (acHandleStep res cache handle chats sendOk).2 h = alookup cache h ∨
      (h = handle ∧ ∃ subs sub, res = some subs ∧ subs.getLast? = some sub ∧
        sub.result = some "AC" ∧
        alookup (acHandleStep res cache handle chats sendOk).2 h =
          some (acDerivedId sub) ∧
        some (acDerivedId sub) ≠ alookup cache h)) ∧
    (∀ envs h, alookup (runCycles envs ⟨[], []⟩).2.lastCF h = none →
      ((runCycles envs ⟨[], []⟩).1.all
        fun o => o.cfSends.all fun s => !(s.handle == h)) = true) ∧
    (∀ envs h, alookup (runCycles envs ⟨[], []⟩).2.lastAC h = none →
      ((runCycles envs ⟨[], []⟩).1.all
        fun o => o.acSends.all fun s => !(s.handle == h)) = true) := by
  refine ⟨fun res cache handle chats sendOk h => ?_,
    fun res cache handle chats sendOk h => ?_,
    fun envs h => runCycles_absent_no_cf_sends envs ⟨[], []⟩ h,
    fun envs h => runCycles_absent_no_ac_sends envs ⟨[], []⟩ h⟩
  · by_cases hf : cfFires res cache handle = true
    · obtain ⟨r, sub, rest, hres, hr, hs, hv, hd, hstep⟩ :=
        cfHandleStep_fires res cache handle hf
      by_cases hh : h = handle
      · subst hh
        refine Or.inr ⟨rfl, r, sub, rest, hres, hr, hs, hv, ?_, fun he => hd he.symm⟩
        rw [hstep chats sendOk]
        exact alookup_listInsert_self cache h sub.id
      · exact Or.inl (cfHandleStep_lookup_other res cache handle chats sendOk h hh)
    · rw [cfHandleStep_not_fires res cache handle chats sendOk (by simpa using hf)]
      exact Or.inl rfl
  · by_cases hf : acFires res cache handle = true
    · obtain ⟨subs, sub, hres, hl, hv, hd, hstep⟩ :=
        acHandleStep_fires res cache handle hf
      by_cases hh : h = handle
      · subst hh
        refine Or.inr ⟨rfl, subs, sub, hres, hl, hv, ?_, fun he => hd he.symm⟩
        rw [hstep chats sendOk]
        exact alookup_listInsert_self cache h (acDerivedId sub)
      · exact Or.inl (acHandleStep_lookup_other res cache handle chats sendOk h hh)
    · rw [acHandleStep_not_fires res cache handle chats sendOk (by simpa using hf)]
      exact Or.inl rfl

/-- A single-cycle environment where only alice is tracked and fires. -/
def envC6 : CycleEnv :=
  ⟨true, true, [("100", ["alice"])], [],
   fun h => if h = "alice" then
       some ⟨some "OK", [⟨some 555, some "OK", ⟨1, "A", some "Sum", some 800⟩⟩]⟩
     else none,
   fun _ => none, fun _ => true⟩

/-- Witness for C6: after one cycle bob is absent from the CF cache, so no
notification was ever sent for bob (while alice did fire). -/
theorem claim_C6_witness :
    ((runCycles [envC6] ⟨[], []⟩).1.all
      fun o => o.cfSends.all fun s => !(s.handle == "bob")) = true ∧
    ((runCycles [envC6] ⟨[], []⟩).1.all
      fun o => o.acSends.all fun s => !(s.handle == "bob")) = true :=
  ⟨claim_C6.2.2.1 [envC6] "bob" (by decide),
   claim_C6.2.2.2 [envC6] "bob" (by decide)⟩

/-! ## Stalker claims: notification deduplication (C1) -/

/-- The scenario problem, submission and Judge-A poll result. -/
def probC1 : CFProblem := ⟨1, "A", some "Sum", some 800⟩

def respC1 : CFResp := ⟨some "OK", [⟨some 555, some "OK", probC1⟩]⟩

/-- The scenario environment: TrackedSet = chat 100 tracking alice on CF,
the Judge-A poll returning the accepted submission 555, nothing on AC, all
deliveries succeeding. -/
def envC1 : CycleEnv :=
  ⟨true, true, [("100", ["alice"])], [],
   fun h => if h = "alice" then some respC1 else none,
   fun _ => none, fun _ => true⟩

/-- C1: notification deduplication.  General part: whatever the tracked
sets, toggles and fetch results, running a second cycle that observes the
exact same fetch results as the one before it sends no notification at all
(for either judge) — so a submission observed unchanged in consecutive
cycles is notified at most once.  Scenario part: with TrackedSet =
chat 100 tracking alice, LastSeen empty, and the Judge-A poll result
id 555 / verdict OK / problem Sum rated 800, one cycle attempts exactly one
delivery, to chat 100, whose text mentions both `Sum` and `800`, and sets
LastSeen for alice to 555; a second cycle with the identical fetch result
sends nothing. -/
theorem claim_C1 :
    (∀ env st, (stalkerCycle env (stalkerCycle env st).2).1.cfSends = [] ∧
      (stalkerCycle env (stalkerCycle env st).2).1.acSends = []) ∧
    (stalkerCycle envC1 ⟨[], []⟩).1.cfSends =
      [⟨"alice", "100", cfMessage "alice" probC1, true, true⟩] ∧
    strContains (cfMessage "alice" probC1) "Sum" = true ∧
    strContains (cfMessage "alice" probC1) "800" = true ∧
    (stalkerCycle envC1 ⟨[], []⟩).2.lastCF = [("alice", some 555)] ∧
    (stalkerCycle envC1 (stalkerCycle envC1 ⟨[], []⟩).2).1.cfSends = [] ∧
    (stalkerCycle envC1 (stalkerCycle envC1 ⟨[], []⟩).2).1.acSends = [] := by
  refine ⟨fun env st => stalkerCycle_repeat_silent env st, ?_, ?_, ?_, ?_, ?_, ?_⟩
  · decide
  · decide
  · decide
  · decide
  · exact (stalkerCycle_repeat_silent envC1 ⟨[], []⟩).1
  · exact (stalkerCycle_repeat_silent envC1 ⟨[], []⟩).2
